import Mathlib

/-!
Verification development for the epochs module (`mne/epochs.py`): the epoch
collection data model (events, selection, drop log), the rejection engine,
the materialization pipeline, event deduplication/merge, count equalization,
threshold monotonicity, and the save/read codec at tag granularity.

Machine floating point is modelled by exact rationals; the byte-level FIF tag
codec and the JSON codec (which live outside `mne/epochs.py`) are modelled as
faithful structured codecs at tag granularity.
-/

namespace Epochs

/-- An event record `(sample, prior_code, code)` (spec §3, `mne.epochs` event rows). -/
structure Event where
  sample : Int
  prior : Int
  code : Int
deriving DecidableEq

instance : Inhabited Event := ⟨⟨0, 0, 0⟩⟩

/-- One epoch's samples: a list of channels, each a list of time points. -/
abbrev Epoch := List (List ℚ)

/-- The epoch collection state: the `BaseEpochs` attributes that the claims are
about (`events`, `selection`, `drop_log`, `event_id`, `_bad_dropped`, `reject`,
`flat`, `_channel_type_idx`, `ch_names`, `info['bads']`, `len(times)`,
`_projector`, `_do_delayed_proj`, `proj`, `baseline`, `_data`).
`reject_tmin`/`reject_tmax` are fixed at their default `None` (no `_reject_time`
slicing). -/
structure Collection where
  events : List Event
  eventId : List (String × Int)
  selection : List Nat
  dropLog : List (List String)
  badDropped : Bool
  reject : Option (List (String × ℚ))
  flat : Option (List (String × ℚ))
  typeIdx : List (String × List Nat)
  chNames : List String
  bads : List String
  nTimes : Nat
  projector : Option (List (List ℚ))
  delayedProj : Bool
  proj : Bool
  baseline : Option (ℚ × ℚ)
  data : Option (List Epoch)
deriving DecidableEq

instance {ε α : Type} [DecidableEq ε] [DecidableEq α] : DecidableEq (Except ε α) := fun x y =>
  match x, y with
  | .error a, .error b =>
    if h : a = b then .isTrue (congrArg Except.error h)
    else .isFalse (fun he => h (Except.error.inj he))
  | .ok a, .ok b =>
    if h : a = b then .isTrue (congrArg Except.ok h)
    else .isFalse (fun he => h (Except.ok.inj he))
  | .error _, .ok _ => .isFalse (fun he => Except.noConfusion he)
  | .ok _, .error _ => .isFalse (fun he => Except.noConfusion he)

/-- Association-list lookup by string key (Python `dict.get`/`dict.__getitem__`). -/
def alookup (l : List (String × ℚ)) (k : String) : Option ℚ :=
  (l.find? (fun kv => kv.1 == k)).map Prod.snd

/-- Insertion into an ascending list of integers. -/
def insertInt (x : Int) : List Int → List Int
  | [] => [x]
  | y :: ys => if x ≤ y then x :: y :: ys else y :: insertInt x ys

/-- Ascending sort on integers (`np.unique` returns sorted values). -/
def sortInts (l : List Int) : List Int := l.foldr insertInt []

/-- Insertion into an ascending list of strings. -/
def insertStr (x : String) : List String → List String
  | [] => [x]
  | y :: ys => if compare x y = Ordering.gt then y :: insertStr x ys else x :: y :: ys

/-- Ascending sort on strings (Python `sorted`). -/
def sortStrs (l : List String) : List String := l.foldr insertStr []

/-- Set equality of two string lists (Python `set(a) == set(b)`). -/
def sameSet (a b : List String) : Bool :=
  a.all (fun x => decide (x ∈ b)) && b.all (fun x => decide (x ∈ a))

/-- Split a character list at `'/'`. -/
def splitSlashAux : List Char → List Char → List (List Char)
  | [], acc => [acc.reverse]
  | ch :: rest, acc =>
    if ch = '/' then acc.reverse :: splitSlashAux rest []
    else splitSlashAux rest (ch :: acc)

/-- Python `key.split('/')`. -/
def splitSlash (s : String) : List String :=
  (splitSlashAux s.toList []).map (fun cs => String.mk cs)

/-- Appends reason lists at the given drop-log positions, in order: the
in-place updates `drop_log[sel] = drop_log[sel] + reasons` of the source. -/
def bumpAll (dl : List (List String)) (ups : List (Nat × List String)) : List (List String) :=
  ups.foldl (fun d p => d.set p.1 (d.getD p.1 [] ++ p.2)) dl

/-! ### Rejection engine: `_is_good` / `_is_good_epoch` -/

/-- Peak-to-peak amplitude (`np.max - np.min` along the time axis) of one channel. -/
def ptp (row : List ℚ) : ℚ := row.foldl max (row.headD 0) - row.foldl min (row.headD 0)

/-- The offending channel names collected by `_is_good` (epochs.py:2766) for one
threshold dictionary; `useGreater` selects `np.greater` (reject) versus
`np.less` (flat), and `ignore` is `ignore_chs` (channels marked bad). -/
def badNamesFor (e : Epoch) (chNames : List String) (typeIdx : List (String × List Nat))
    (thresholds : List (String × ℚ)) (useGreater : Bool) (ignore : List String) : List String :=
  thresholds.foldl (fun acc kt =>
    let idx := ((typeIdx.find? (fun ti => ti.1 == kt.1)).map Prod.snd).getD []
    let offenders := idx.filter (fun i =>
      (if useGreater then decide (kt.2 < ptp (e.getD i [])) else decide (ptp (e.getD i []) < kt.2))
      && !(decide ((chNames.getD i "") ∈ ignore)))
    acc ++ offenders.map (fun i => chNames.getD i "")) []

/-- Model of `_is_good` with `full_report=True` (epochs.py:2766): goodness plus the
offending channel names, reject thresholds checked before flat thresholds. -/
def isGoodFull (e : Epoch) (chNames : List String) (typeIdx : List (String × List Nat))
    (reject flat : Option (List (String × ℚ))) (ignore : List String) : Bool × List String :=
  let bad := badNamesFor e chNames typeIdx (reject.getD []) true ignore ++
             badNamesFor e chNames typeIdx (flat.getD []) false ignore
  (bad.isEmpty, bad)

/-- The value handed to `_is_good_epoch`: `None`, a sentinel reason string
(e.g. a segment excluded by annotation), or a samples array. -/
inductive Seg where
  | noData : Seg
  | excluded (reason : String) : Seg
  | seg (e : Epoch) : Seg
deriving DecidableEq

/-- Number of time samples of an epoch array (`data.shape[1]`). -/
def segTimes (e : Epoch) : Nat := (e.headD []).length

/-- Model of `BaseEpochs._is_good_epoch` (epochs.py:779), with the default
`reject_tmin = reject_tmax = None` so no `_reject_time` slicing happens. -/
def isGoodEpoch (c : Collection) (s : Seg) : Bool × List String :=
  match s with
  | .excluded r => (false, [r])
  | .noData => (false, ["NO_DATA"])
  | .seg e =>
    if segTimes e < c.nTimes then (false, ["TOO_SHORT"])
    else if c.reject.isNone && c.flat.isNone then (true, [])
    else isGoodFull e c.chNames c.typeIdx c.reject c.flat c.bads

/-! ### Projection -/

/-- Model of `np.dot(projector, epoch)`: entry `(i, t)` is `sum_k P[i][k] * e[k][t]`. -/
def matMul (p : List (List ℚ)) (e : Epoch) : Epoch :=
  p.map (fun prow => (List.range (segTimes e)).map (fun t =>
    ((prow.zip e).map (fun q => q.1 * (q.2.getD t 0))).sum))

/-- Model of `BaseEpochs._project_epoch` (epochs.py:1300): apply the projector whenever
one exists and either delayed mode or active projection is on. -/
def projectEpoch (c : Collection) (s : Seg) : Seg :=
  match s with
  | .seg e =>
    match c.projector with
    | some p => if c.delayedProj || c.proj then .seg (matMul p e) else .seg e
    | none => .seg e
  | _ => s

/-! ### Subsetting and `drop` -/

/-- Modelled from the spec: `GetEpochsMixin._getitem` (mne/utils/mixin.py, not
under src/). Restricts `events`/`selection`/`data` to the kept positions in
order and, when a reason is given, appends it to the drop-log entry of each
removed epoch's original index (spec §3: the drop log is the per-original-event
record of removal reasons, and `drop(indices)` permanently records e.g.
`"USER"`/`"EQUALIZED_COUNT"`). -/
def getitemModel (c : Collection) (keep : List Nat) (reason : Option String) : Collection :=
  let n := c.selection.length
  let removed := (List.range n).filter (fun i => !(decide (i ∈ keep)))
  let dropLog' := match reason with
    | none => c.dropLog
    | some r => bumpAll c.dropLog (removed.map (fun i => (c.selection.getD i 0, [r])))
  { c with
    events := keep.map (fun i => c.events.getD i default),
    selection := keep.map (fun i => c.selection.getD i 0),
    dropLog := dropLog',
    data := c.data.map (fun d => keep.map (fun i => d.getD i [])) }

/-- Negative indices count from the end:
`np.where(indices < 0, indices + len(events), indices)` (epochs.py:1282). -/
def adjustIdx (n : Nat) (i : Int) : Int := if i < 0 then i + n else i

/-- Model of `BaseEpochs.drop` (epochs.py:1246): adjust negatives, bounds-check (raising
`IndexError` before any mutation), then `_getitem` on the set difference. -/
def dropOp (c : Collection) (indices : List Int) (reason : String) : Except String Collection :=
  let n := c.events.length
  let tryIdx := indices.map (adjustIdx n)
  if tryIdx.any (fun t => decide (t < 0) || decide ((n : Int) ≤ t)) then
    .error "IndexError: epoch index out of bounds"
  else
    let keep := (List.range n).filter (fun i => !(decide (Int.ofNat i ∈ tryIdx)))
    .ok (getitemModel c keep (some reason))

/-! ### Event deduplication and merge -/

/-- First gap in an ascending pool: one above the left end of the first jump
greater than one, or one above the last element when there is no jump
(`diffs = np.diff(ev_vals); idx = first diff > 1 else -1; ev_vals[idx] + 1`,
epochs.py:246-249). -/
def firstGap : List Int → Int
  | [] => 1
  | [x] => x + 1
  | x :: y :: rest => if 1 < y - x then x + 1 else firstGap (y :: rest)

/-- Fresh value allocation of `_merge_events` (epochs.py:243-249): 1 when the
sorted pool starts above 1, else the first-gap value. -/
def allocNewVal (pool : List Int) : Int :=
  match pool with
  | [] => 1
  | x :: _ => if 1 < x then 1 else firstGap pool

/-- One duplicated-sample step of `_merge_events` (epochs.py:204-258); the state
is (working events array, event_id, indices marked for deletion); `events` is
the original array, which the source keeps reading from. -/
def mergeOne (events : List Event) (st : List Event × List (String × Int) × List Nat)
    (ev : Int) : List Event × List (String × Int) × List Nat :=
  let newEvents := st.1
  let eventId := st.2.1
  let toDelete := st.2.2
  let idxs := (List.range events.length).filter (fun i => (events.getD i default).sample == ev)
  let priors := sortInts ((idxs.map (fun i => (events.getD i default).prior)).dedup)
  let newPrior := if priors.length == 1 then priors.headD 0 else 0
  let evVals := sortInts ((idxs.map (fun i => (events.getD i default).code)).dedup)
  let valAndId : Int × List (String × Int) :=
    if evVals.length ≤ 1 then (evVals.headD 0, eventId)
    else
      let keys := eventId.map Prod.fst
      let vals := eventId.map Prod.snd
      let comps := evVals.map (fun v => keys.getD (vals.indexOf v) "")
      match eventId.find? (fun kv => sameSet (splitSlash kv.1) comps) with
      | some kv => (kv.2, eventId)
      | none =>
        let pool := sortInts ((eventId.map Prod.snd ++
          events.flatMap (fun e => [e.prior, e.code])).dedup)
        let nv := allocNewVal pool
        let newKey := String.intercalate "/" (sortStrs comps)
        (nv, eventId ++ [(newKey, nv)])
  let first := idxs.headD 0
  (newEvents.set first { sample := ev, prior := newPrior, code := valAndId.1 },
   valAndId.2, toDelete ++ idxs.drop 1)

/-- Model of `_merge_events` (epochs.py:198): merge events sharing a sample, delete the
trailing duplicates from events and selection. -/
def mergeEvents (events : List Event) (eventId : List (String × Int)) (selection : List Nat) :
    List Event × List (String × Int) × List Nat :=
  let samples := events.map (fun e => e.sample)
  let dups := (sortInts samples.dedup).filter (fun v => 1 < samples.count v)
  let st := dups.foldl (mergeOne events) (events, eventId, [])
  let keep := (List.range events.length).filter (fun i => !(decide (i ∈ st.2.2)))
  (keep.map (fun i => st.1.getD i default),
   st.2.1,
   keep.map (fun i => selection.getD i 0))

/-- Model of `_handle_event_repeated` (epochs.py:267): early return when samples are
unique; policy `error` raises; `drop` keeps first occurrences (in sample
order, via `np.unique(..., return_index=True)`); `merge` calls
`_merge_events`; both record the removed originals in the drop log and prune
`event_id` entries whose value no longer occurs in `events[:, 1:]`. -/
def handleEventRepeated (events : List Event) (eventId : List (String × Int))
    (eventRepeated : String) (selection : List Nat) (dropLog : List (List String)) :
    Except String (List Event × List (String × Int) × List Nat × List (List String)) :=
  let samples := events.map (fun e => e.sample)
  if samples.dedup.length == events.length then
    .ok (events, eventId, selection, dropLog)
  else if !(eventRepeated == "error" || eventRepeated == "drop" || eventRepeated == "merge") then
    .error "invalid event_repeated option"
  else if eventRepeated == "error" then
    .error "Event time samples were not unique"
  else
    let res : List Event × List (String × Int) × List Nat :=
      if eventRepeated == "drop" then
        let uIdxs := (sortInts samples.dedup).map (fun v => samples.indexOf v)
        (uIdxs.map (fun i => events.getD i default), eventId,
         uIdxs.map (fun i => selection.getD i 0))
      else
        mergeEvents events eventId selection
    let reasonStr := if eventRepeated == "drop" then "DROP DUPLICATE" else "MERGE DUPLICATE"
    let dropIdxs := selection.filter (fun s => !(decide (s ∈ res.2.2)))
    let dropLog' := bumpAll dropLog (dropIdxs.map (fun s => (s, [reasonStr])))
    let keys := res.1.flatMap (fun e => [e.prior, e.code])
    let eventId' := res.2.1.filter (fun kv => decide (kv.2 ∈ keys))
    .ok (res.1, eventId', res.2.2, dropLog')

/-! ### Construction -/

/-- Model of `BaseEpochs.__init__`, events path (epochs.py:388-444), with the defaults
`selection=None` and `drop_log=None` and a non-raising `on_missing`: select the
events whose code appears among the `event_id` values, build the initial drop
log (`'IGNORED'` for unselected originals), handle repeated events, and fail
with `'No desired events found.'` when nothing remains.  `t` supplies the
non-event configuration (info-derived fields and any preloaded data); `reject`
and `flat` start out `None` (epochs.py:529-530) and are installed by a separate
`_reject_setup` step. The preload shape check (epochs.py:472-474) requires the
data row count to match the retained events. -/
def mkCollection (t : Collection) (evs : List Event) (eventId : List (String × Int))
    (eventRepeated : String) : Except String Collection :=
  let vals := eventId.map Prod.snd
  let selected := (List.range evs.length).filter
    (fun i => decide ((evs.getD i default).code ∈ vals))
  let dropLog0 := (List.range evs.length).map
    (fun k => if k ∈ selected then ([] : List String) else (["IGNORED"] : List String))
  let events0 := selected.map (fun i => evs.getD i default)
  match handleEventRepeated events0 eventId eventRepeated selected dropLog0 with
  | .error e => .error e
  | .ok (events', eventId', selection', dropLog') =>
    if events'.length == 0 then .error "No desired events found."
    else match t.data with
    | some d =>
      if d.length == events'.length then
        .ok { t with events := events', eventId := eventId', selection := selection',
                     dropLog := dropLog', badDropped := false, reject := none, flat := none }
      else .error "The number of epochs and the number of events must match"
    | none =>
      .ok { t with events := events', eventId := eventId', selection := selection',
                   dropLog := dropLog', badDropped := false, reject := none, flat := none }

/-! ### Threshold setup -/

/-- Error kinds of `_reject_setup` (epochs.py:706-755); the monotonicity errors
are the spec's *IrreversibleOperationError*. -/
inductive SetupErr where
  | unknownKey : SetupErr
  | noChannel : SetupErr
  | badValue : SetupErr
  | irrevReject : SetupErr
  | irrevFlat : SetupErr
deriving DecidableEq

/-- Model of `new > old` on reject thresholds where a missing entry means `np.inf`
(epochs.py:744-749). -/
def gtRej : Option ℚ → Option ℚ → Bool
  | none, none => false
  | none, some _ => true
  | some _, none => false
  | some n, some o => decide (o < n)

/-- Model of `new < old` on flat thresholds where a missing entry means `-np.inf`
(epochs.py:750-755). -/
def ltFlat : Option ℚ → Option ℚ → Bool
  | none, none => false
  | none, some _ => true
  | some _, none => false
  | some n, some o => decide (n < o)

/-- Model of `BaseEpochs._reject_setup` (epochs.py:706): validate keys against the
channel-type index, reject thresholds on channel-less types, negative values;
then enforce monotonic strictness against the previously applied thresholds
(reject may only decrease, flat may only increase, per key, with missing
entries counting as `±inf`); on success install the thresholds and reset
`_bad_dropped`. -/
def rejectSetup (c : Collection) (reject flat : Option (List (String × ℚ))) :
    Except SetupErr Collection :=
  let rej := reject.getD []
  let fl := flat.getD []
  if !((rej ++ fl).all (fun kv => decide (kv.1 ∈ c.typeIdx.map Prod.fst))) then
    .error .unknownKey
  else if c.typeIdx.any (fun ti => ti.2.isEmpty &&
      ((alookup rej ti.1).isSome || decide (0 ≤ (alookup fl ti.1).getD (-1)))) then
    .error .noChannel
  else if (rej ++ fl).any (fun kv => decide (kv.2 < 0)) then
    .error .badValue
  else
    let oldR := c.reject.getD []
    let oldF := c.flat.getD []
    if (rej.map Prod.fst ++ oldR.map Prod.fst).any
        (fun k => gtRej (alookup rej k) (alookup oldR k)) then
      .error .irrevReject
    else if (fl.map Prod.fst ++ oldF.map Prod.fst).any
        (fun k => ltFlat (alookup fl k) (alookup oldF k)) then
      .error .irrevFlat
    else
      .ok { c with badDropped := false,
                   reject := if rej.isEmpty then none else some rej,
                   flat := if fl.isEmpty then none else some fl }

/-! ### Materialization pass -/

/-- The samples of a `Seg` (only used on good epochs, which are always arrays). -/
def segData : Seg → Epoch
  | .seg e => e
  | _ => []

/-- The value rejection is evaluated on in `_get_data` (epochs.py:1377-1393):
from memory — projected first when in delayed mode — or fetched from the raw
source (detrend/baseline/decimation folded into `fetch`) and then projected. -/
def rejectionSeg (c : Collection) (fetch : Nat → Seg) (idx : Nat) : Seg :=
  match c.data with
  | some d =>
    if c.delayedProj then projectEpoch c (.seg (d.getD idx [])) else .seg (d.getD idx [])
  | none => projectEpoch c (fetch idx)

/-- The value `_get_data` stores and returns (`epoch_out`, epochs.py:1391):
the un-projected value in delayed mode, else exactly what rejection saw. -/
def outputSeg (c : Collection) (fetch : Nat → Seg) (idx : Nat) : Seg :=
  if c.delayedProj then
    match c.data with
    | some d => .seg (d.getD idx [])
    | none => fetch idx
  else rejectionSeg c fetch idx

/-- The rejection pass of `BaseEpochs._get_data` (epochs.py:1368-1427), as run
by `drop_bad`/`load_data` (all epochs selected): judge each epoch, append the
offending reasons to the drop log at the epoch's original index, keep the good
subset (`_getitem(good_idx, None)`), store the good epochs' output values when
data is in memory, and latch `bad_dropped`.  When bads are already dropped the
call returns without touching state (epochs.py:1342-1344). -/
def getDataPass (c : Collection) (fetch : Nat → Seg) : Collection :=
  if c.badDropped then c
  else
    let n := c.selection.length
    let judge := fun i => isGoodEpoch c (rejectionSeg c fetch i)
    let goodIdx := (List.range n).filter (fun i => (judge i).1)
    let badIdx := (List.range n).filter (fun i => !(judge i).1)
    let dl1 := bumpAll c.dropLog (badIdx.map (fun i => (c.selection.getD i 0, (judge i).2)))
    let c1 := { c with dropLog := dl1 }
    let c2 := getitemModel c1 goodIdx none
    { c2 with
        badDropped := true
        data := c.data.map (fun _ => goodIdx.map (fun i => segData (outputSeg c fetch i))) }

/-- Model of `BaseEpochs.drop_bad` with `reject='existing', flat='existing'`
(epochs.py:1188-1198): return immediately once `bad_dropped` is set; otherwise
re-apply the unchanged thresholds (`_reject_setup` with the currently installed
values, which passes the monotonicity check and leaves them in place) and run
the `_get_data(out=False)` pass. -/
def dropBadExisting (c : Collection) (fetch : Nat → Seg) : Collection :=
  if c.badDropped then c else getDataPass c fetch

/-! ### Equalization (`mintime`/`truncate`) -/

/-- Model of `t_shorter` evaluated at integer grid point `k` under
`interp1d(arange(len), t_shorter, fill_value=t_shorter[-1], bounds_error=False)`:
integer queries on the integer grid return the node values, out-of-range
queries the fill value. -/
def shorterAt (ts : List ℚ) (k : Nat) : ℚ :=
  if k < ts.length then ts.getD k 0 else ts.getD (ts.length - 1) 0

/-- The currently kept entries of `t_longer` with candidate `j` also removed
(`t_longer[keep_mask[row]]`, epochs.py:2750-2754). -/
def tKeepAt (tLong : List ℚ) (keep : List Bool) (j : Nat) : List ℚ :=
  (((List.range tLong.length).filter
    (fun i => keep.getD i false && !(decide (i = j))))).map (fun i => tLong.getD i 0)

/-- The score of one candidate removal (epochs.py:2758-2760):
`sum |d1| + sum |d2|` where `d1` aligns the kept-longer sequence against the
shorter one on the shorter grid and `d2` the shorter against the kept-longer
on the longer grid (with last-value fill). -/
def scorePair (tShort tk : List ℚ) : ℚ :=
  ((List.range tShort.length).map (fun k => |tk.getD k 0 - tShort.getD k 0|)).sum +
  ((List.range tk.length).map (fun k => |shorterAt tShort k - tk.getD k 0|)).sum

/-- Model of `np.argmin` with first-occurrence tie-breaking over a score vector in which
removed entries hold `np.inf` (modelled as `none`). -/
def argminScores (l : List (Option ℚ)) : Nat :=
  (l.foldl (fun (st : Nat × Nat × Option ℚ) x =>
    match st.2.2, x with
    | _, none => (st.1, st.2.1 + 1, st.2.2)
    | none, some v => (st.2.1, st.2.1 + 1, some v)
    | some bv, some v =>
      if v < bv then (st.2.1, st.2.1 + 1, some v) else (st.1, st.2.1 + 1, some bv))
    (0, 0, none)).1

/-- One greedy-removal iteration of `_minimize_time_diff` (epochs.py:2746-2761):
score every still-kept candidate and clear the first minimizer. -/
def mintimeStep (tShort tLong : List ℚ) (keep : List Bool) : List Bool :=
  let scores := (List.range tLong.length).map (fun j =>
    if keep.getD j false then some (scorePair tShort (tKeepAt tLong keep j)) else none)
  keep.set (argminScores scores) false

/-- Runs `n` greedy-removal iterations. -/
def mintimeIter (tShort tLong : List ℚ) : Nat → List Bool → List Bool
  | 0, keep => keep
  | n + 1, keep => mintimeIter tShort tLong n (mintimeStep tShort tLong keep)

/-- Model of `_minimize_time_diff` (epochs.py:2730): the boolean keep-mask after removing
`len(t_longer) - len(t_shorter)` entries greedily; everything is dropped when
the shorter list is empty. -/
def minimizeTimeDiff (tShort tLong : List ℚ) : List Bool :=
  if tShort.isEmpty then List.replicate tLong.length false
  else mintimeIter tShort tLong (tLong.length - tShort.length)
    (List.replicate tLong.length true)

/-- First index of the minimum (`np.argmin` over the group sizes). -/
def argminNat (l : List Nat) : Nat :=
  (l.foldl (fun (st : Nat × Nat × Option Nat) x =>
    match st.2.2 with
    | none => (st.2.1, st.2.1 + 1, some x)
    | some bv => if x < bv then (st.2.1, st.2.1 + 1, some x)
                 else (st.1, st.2.1 + 1, some bv))
    (0, 0, none)).1

/-- Model of `_get_drop_indices` (epochs.py:2713): per group, the indices where the keep
mask (from `mintime` minimization or `truncate`) is false. -/
def getDropIndices (eventTimes : List (List ℚ)) (method : String) : List (List Nat) :=
  let smallIdx := argminNat (eventTimes.map List.length)
  let small := eventTimes.getD smallIdx []
  eventTimes.map (fun e =>
    let mask := if method == "mintime" then minimizeTimeDiff small e
                else (List.range e.length).map (fun i => decide (i < small.length))
    (List.range e.length).filter (fun i => !(mask.getD i true)))

/-! ### Save splitting -/

/-- Errors of `BaseEpochs.save` sizing (epochs.py:1782-1797): the too-small
error reports the required minimum size; more than 100 parts is refused. -/
inductive SaveErr where
  | tooSmall (minSize : Nat) : SaveErr
  | tooMany (nParts : Nat) : SaveErr
deriving DecidableEq

/-- Number of parts (epochs.py:1789-1790):
`max((total_size - 1) // (split_size - over_size) + 1, 1)`. -/
def nPartsOf (totalSize overSize splitSize : Nat) : Nat :=
  max ((totalSize - 1) / (splitSize - overSize) + 1) 1

/-- Chunks of consecutive integers with the given sizes, starting at `start`. -/
def chunksFrom : List Nat → Nat → List (List Nat)
  | [], _ => []
  | sz :: rest, start => (List.range sz).map (fun j => start + j) ::
      chunksFrom rest (start + sz)

/-- The chunk sizes of `np.array_split(np.arange(n), k)`: the first `n % k`
chunks get one extra element. -/
def splitSizes (n k : Nat) : List Nat :=
  (List.range k).map (fun i => n / k + if i < n % k then 1 else 0)

/-- Model of `np.array_split(np.arange(n), k)` (epochs.py:1805). -/
def arraySplit (n k : Nat) : List (List Nat) :=
  chunksFrom (splitSizes n k) 0

/-- The sizing and splitting logic of `BaseEpochs.save` (epochs.py:1779-1811):
fail when the split size is below `total_size // n_epochs + over_size`
(reporting that minimum), fail when more than 100 parts would result, else
partition the epoch indices with `np.array_split`. -/
def saveSplit (totalSize overSize nEpochs splitSize : Nat) :
    Except SaveErr (List (List Nat)) :=
  let nPer := if nEpochs == 0 then 0 else totalSize / nEpochs
  let minSize := nPer + overSize
  if splitSize < minSize then .error (.tooSmall minSize)
  else
    let nParts := nPartsOf totalSize overSize splitSize
    if 100 < nParts then .error (.tooMany nParts)
    else .ok (arraySplit nEpochs nParts)

/-- Model of `_save_split` (epochs.py:86-92): the part at `part_idx` records a reference
to the next sequentially-numbered part only when `part_idx < n_parts - 1`. -/
def partNextRef (partIdx nParts : Nat) : Option Nat :=
  if partIdx < nParts - 1 then some (partIdx + 1) else none

/-! ### Container codec at tag granularity -/

/-- Tag kinds written by `_save_part` into the epochs scope (epochs.py:98-191).
Modelled from the spec: the byte-level FIF constants and block structure live in
`mne.io` (not under src/); §4.4 describes the format as typed tagged blocks, so
each written field is one tag here. -/
inductive TagKind where
  | eventList : TagKind
  | descr : TagKind
  | firstSamp : TagKind
  | lastSamp : TagKind
  | basMin : TagKind
  | basMax : TagKind
  | epochData : TagKind
  | dropLogK : TagKind
  | rejectFlatK : TagKind
  | selectionK : TagKind
  | nextFileK : TagKind
deriving DecidableEq

/-- Tag payloads. Modelled from the spec: the byte/JSON encoders
(`mne.io.write`, `json`) are outside src/ and are treated as faithful
structured codecs, so a payload stores the structured value it encodes. -/
inductive TagVal where
  | eventsV (evs : List Event) : TagVal
  | strV (s : String) : TagVal
  | intV (n : Int) : TagVal
  | fltV (x : ℚ) : TagVal
  | dataV (d : List Epoch) : TagVal
  | dropLogV (dl : List (List String)) : TagVal
  | selV (sel : List Nat) : TagVal
  | rejV (r : Option (List (String × ℚ)) × Option (List (String × ℚ))) : TagVal
  | refV (fname : String) (idx : Nat) : TagVal
deriving DecidableEq

/-- A typed tag of the epochs scope. -/
structure Tag where
  kind : TagKind
  val : TagVal
deriving DecidableEq

/-- Model of `_event_id_string` (epochs.py:194). -/
def eventIdString (eventId : List (String × Int)) : String :=
  String.intercalate ";" (eventId.map (fun kv => kv.1 ++ ":" ++ toString kv.2))

/-- Per-channel write scaling (epochs.py:155-160): multiply channel `k` by
`decal[k] = 1 / (cal_k * scale_k)`, i.e. divide by the calibration. -/
def scaleWrite (cals : List ℚ) (e : Epoch) : Epoch :=
  (e.zip cals).map (fun rc => rc.1.map (fun x => x / rc.2))

/-- Precision conversion before writing: identity for `double`, a 32-bit
rounding function for `single`. -/
def toPrec (single : Bool) (roundS : ℚ → ℚ) (e : Epoch) : Epoch :=
  if single then e.map (fun row => row.map roundS) else e

/-- Model of `_save_part` (epochs.py:98-191): the tags of one epochs scope, in write
order — event list and `event_id` description, first/last sample, optional
baseline min/max, the calibrated bulk data at the chosen precision, the drop
log, the reject/flat parameters when any are set, the selection vector, and a
next-file reference when the save is split. -/
def savePart (c : Collection) (single : Bool) (roundS : ℚ → ℚ) (cals : List ℚ)
    (first last : Int) (nextRef : Option (String × Nat)) : List Tag :=
  let d := c.data.getD []
  let dw := d.map (fun e => toPrec single roundS (scaleWrite cals e))
  [⟨.eventList, .eventsV c.events⟩, ⟨.descr, .strV (eventIdString c.eventId)⟩,
   ⟨.firstSamp, .intV first⟩, ⟨.lastSamp, .intV last⟩] ++
  (match c.baseline with
   | none => []
   | some b => [⟨.basMin, .fltV b.1⟩, ⟨.basMax, .fltV b.2⟩]) ++
  [⟨.epochData, .dataV dw⟩, ⟨.dropLogK, .dropLogV c.dropLog⟩] ++
  (if c.reject.isSome || c.flat.isSome then [⟨.rejectFlatK, .rejV (c.reject, c.flat)⟩] else []) ++
  [⟨.selectionK, .selV c.selection⟩] ++
  (match nextRef with
   | none => []
   | some fn => [⟨.nextFileK, .refV fn.1 fn.2⟩])

/-- Accumulator of the directory scan of `_read_one_epoch_file`
(epochs.py:2849-2889); later tags overwrite earlier ones, as in the source loop. -/
structure ReadAcc where
  events : Option (List Event)
  first : Option Int
  last : Option Int
  bmin : Option ℚ
  bmax : Option ℚ
  dataT : Option (List Epoch)
  sel : Option (List Nat)
  dl : Option (List (List String))

/-- The empty accumulator. -/
def ReadAcc.init : ReadAcc :=
  ⟨none, none, none, none, none, none, none, none⟩

/-- One directory entry of the scan. -/
def readStep (a : ReadAcc) (t : Tag) : ReadAcc :=
  match t.kind, t.val with
  | .eventList, .eventsV e => { a with events := some e }
  | .firstSamp, .intV n => { a with first := some n }
  | .lastSamp, .intV n => { a with last := some n }
  | .basMin, .fltV x => { a with bmin := some x }
  | .basMax, .fltV x => { a with bmax := some x }
  | .epochData, .dataV d => { a with dataT := some d }
  | .selectionK, .selV s => { a with sel := some s }
  | .dropLogK, .dropLogV l => { a with dl := some l }
  | _, _ => a

/-- Model of `_read_one_epoch_file` (epochs.py:2810-2953): scan the epochs scope,
require the event list and the data tag (else `'Epochs data not found'`),
check the stored size against the declared event count (else
`'Incorrect number of samples'`), rescale by the calibrations, reassemble the
baseline from its min/max tags, and default `selection`/`drop_log` for old
files.  Returns `(events, baseline, selection, drop_log, data)`. -/
def readOne (tags : List Tag) (cals : List ℚ) :
    Except String (List Event × Option (ℚ × ℚ) × List Nat × List (List String) × List Epoch) :=
  let acc := tags.foldl readStep ReadAcc.init
  match acc.events with
  | none => .error "Could not find epochs data"
  | some evs =>
    match acc.dataT with
    | none => .error "Epochs data not found"
    | some dw =>
      if dw.length ≠ evs.length then .error "Incorrect number of samples"
      else
        let dataOut := dw.map (fun e => (e.zip cals).map (fun rc => rc.1.map (fun x => x * rc.2)))
        let baseline := if acc.bmin.isSome || acc.bmax.isSome
          then some (acc.bmin.getD 0, acc.bmax.getD 0) else none
        .ok (evs, baseline, acc.sel.getD (List.range evs.length),
             acc.dl.getD (List.replicate evs.length []), dataOut)

/-- Relative-error closeness of one stored value to the original: the
32-bit-float rounding contract of the `single` format. -/
def approxEntry (eps x y : ℚ) : Prop := |x - y| ≤ eps * |y|

/-! ### Invariants and reachability -/

/-- Inductive well-formedness of the (selection, drop log, events) triple:
distinct selection entries, one per retained event, all within the drop log,
and the empty drop-log entries are exactly the positions in `selection`. -/
def wfParts (sel : List Nat) (dl : List (List String)) (nEv : Nat) : Prop :=
  sel.Nodup ∧ sel.length = nEv ∧ (∀ s ∈ sel, s < dl.length) ∧
  (∀ k, k < dl.length → ((dl.getD k []).isEmpty = true ↔ k ∈ sel))

/-- Well-formedness of a collection. -/
def wf (c : Collection) : Prop := wfParts c.selection c.dropLog c.events.length

/-- The invariant stated by the spec (§8 and `_check_consistency`,
epochs.py:560-571): `len(selection) == len(events)`,
`len(drop_log) >= len(events)`, and the number of empty drop-log entries
equals `len(selection)`. -/
def claimInv (c : Collection) : Prop :=
  c.selection.length = c.events.length ∧
  c.events.length ≤ c.dropLog.length ∧
  c.dropLog.countP (fun e => e.isEmpty) = c.selection.length

/-- One observable mutation of a collection after construction: a
materialization/rejection pass (`_get_data`, also run by `load_data` and
`drop_bad`), `drop_bad` with existing thresholds, `drop` (any reason),
`equalize_event_counts` (which is `drop` at the computed indices with reason
`'EQUALIZED_COUNT'`, epochs.py:2707-2710), or `_reject_setup`. -/
inductive Step : Collection → Collection → Prop where
  | getData (c : Collection) (fetch : Nat → Seg) : Step c (getDataPass c fetch)
  | dropBad (c : Collection) (fetch : Nat → Seg) : Step c (dropBadExisting c fetch)
  | drop (c : Collection) (indices : List Int) (reason : String) (c' : Collection)
      (h : dropOp c indices reason = .ok c') : Step c c'
  | equalize (c : Collection) (eventTimes : List (List ℚ)) (method : String) (j : Nat)
      (c' : Collection)
      (h : dropOp c (((getDropIndices eventTimes method).getD j []).map Int.ofNat)
            "EQUALIZED_COUNT" = .ok c') : Step c c'
  | setup (c : Collection) (r f : Option (List (String × ℚ))) (c' : Collection)
      (h : rejectSetup c r f = .ok c') : Step c c'

/-- All collections observable after a given starting state. -/
def Reachable : Collection → Collection → Prop := Relation.ReflTransGen Step

/-! ### Concrete instances used by witnesses and counterexamples -/

/-- A fetch function that never finds raw data (unused by preloaded paths). -/
def fetchNone : Nat → Seg := fun _ => Seg.noData

/-- A configuration template with no preloaded data. -/
def tmplW : Collection :=
  { events := [], eventId := [], selection := [], dropLog := [], badDropped := false,
    reject := none, flat := none, typeIdx := [("eeg", [0])], chNames := ["EEG01"],
    bads := [], nTimes := 2, projector := none, delayedProj := false, proj := true,
    baseline := none, data := none }

/-- The collection built from one event with code 1 under `tmplW`. -/
def collW : Collection :=
  { tmplW with events := [⟨0, 0, 1⟩], eventId := [("x", 1)], selection := [0],
               dropLog := [[]], badDropped := false, reject := none, flat := none }

/-- One preloaded epoch of constant data with a flat threshold: every epoch is
rejected by the pass (`ptp = 0 < 10`), leaving zero good epochs. -/
def collAllBad : Collection :=
  { events := [⟨0, 0, 1⟩], eventId := [("x", 1)], selection := [0], dropLog := [[]],
    badDropped := false, reject := none, flat := some [("eeg", 10)],
    typeIdx := [("eeg", [0])], chNames := ["EEG01"], bads := [], nTimes := 3,
    projector := none, delayedProj := false, proj := false, baseline := none,
    data := some [[[2, 2, 2]]] }

/-- Delayed-projection instance: the zero projector flattens the stored epoch
`[[0, 100]]`, so the flat threshold 5 rejects the projected value while the
un-projected value passes. -/
def collDelayed : Collection :=
  { events := [⟨0, 0, 1⟩], eventId := [("x", 1)], selection := [0], dropLog := [[]],
    badDropped := false, reject := none, flat := some [("eeg", 5)],
    typeIdx := [("eeg", [0])], chNames := ["EEG01"], bads := [], nTimes := 2,
    projector := some [[0]], delayedProj := true, proj := false, baseline := none,
    data := some [[[0, 100]]] }

/-- A two-epoch preloaded collection with previously applied thresholds, used
by the threshold-monotonicity and round-trip witnesses. -/
def collThresh : Collection :=
  { events := [⟨0, 0, 1⟩, ⟨1, 0, 1⟩], eventId := [("x", 1)], selection := [0, 1],
    dropLog := [[], []], badDropped := true, reject := some [("eeg", 2)], flat := none,
    typeIdx := [("eeg", [0])], chNames := ["EEG01"], bads := [], nTimes := 2,
    projector := none, delayedProj := false, proj := false,
    baseline := some (0, 1), data := some [[[1, 2]], [[3, 4]]] }

/-! ## Basic lemmas -/

theorem getDataPass_badDropped_eq (c : Collection) (fetch : Nat → Seg)
    (h : c.badDropped = false) : (getDataPass c fetch).badDropped = true := by
  simp [getDataPass, h, getitemModel]

/-- C2: for every epoch collection on which a full bad-epoch-drop pass has
completed, calling the bad-epoch-drop operation again with unchanged
(`'existing'`) reject and flat thresholds leaves events, selection, drop_log,
and data identical: `drop_bad` is idempotent once `bad_dropped` is true. -/
theorem c2_drop_bad_idempotent (c : Collection) (fetch : Nat → Seg) :
    dropBadExisting (dropBadExisting c fetch) fetch = dropBadExisting c fetch := by
  by_cases h : c.badDropped
  · simp [dropBadExisting, h]
  · simp only [Bool.not_eq_true] at h
    simp [dropBadExisting, h, getDataPass_badDropped_eq c fetch h]

section ConcreteEvaluation

attribute [local semireducible] Rat.add Rat.mul Rat.sub Rat.inv Rat.ofScientific

/-- C6: under the `merge` duplicate-event policy, events `[[0,0,1],[0,0,2]]`
with `event_id = {aud: 1, vis: 2}` yield exactly events `[[0,0,3]]` and
`event_id = {aud/vis: 3}`; the merged code 3 is fresh (not among the
`event_id` values nor the raw prior/code entries), and the now-unused entries
`aud` and `vis` are pruned. -/
theorem c6_merge_example :
    handleEventRepeated [⟨0, 0, 1⟩, ⟨0, 0, 2⟩] [("aud", 1), ("vis", 2)] "merge" [0, 1] [[], []] =
      .ok ([⟨0, 0, 3⟩], [("aud/vis", 3)], [0], [[], ["MERGE DUPLICATE"]]) ∧
    (3 : Int) ∉ [("aud", (1 : Int)), ("vis", 2)].map Prod.snd ∧
    (3 : Int) ∉ ([⟨0, 0, 1⟩, ⟨0, 0, 2⟩] : List Event).flatMap (fun e => [e.prior, e.code]) := by
  decide

/-- C8: for event-time groups `A = [1,2,3,4,120,121]` and
`B = [3.5,4.5,120.5,121.5]` under `mintime` equalization, the computed drop
indices remove exactly indices 0 and 1 (times 1 and 2) from A and nothing from
B, leaving both groups with length 4. -/
theorem c8_equalize_example :
    getDropIndices [[1, 2, 3, 4, 120, 121], [7/2, 9/2, 241/2, 243/2]] "mintime" =
      [[0, 1], []] ∧
    ((List.range 6).filter (fun i => !(decide (i ∈ ([0, 1] : List Nat))))).length = 4 ∧
    ((List.range 4).filter (fun i => !(decide (i ∈ ([] : List Nat))))).length = 4 := by
  decide

/-- C7 counterexample: in delayed-projection mode the claim predicts that the
rejection decision equals evaluating the policy on the un-projected values; on
`collDelayed` the un-projected epoch `[[0,100]]` is good, yet the pass drops it
(rejection actually sees the projected values). -/
theorem c7_delayed_counterexample :
    collDelayed.delayedProj = true ∧
    collDelayed.data = some [[[0, 100]]] ∧
    isGoodEpoch collDelayed (.seg [[0, 100]]) = (true, []) ∧
    (getDataPass collDelayed fetchNone).events = [] ∧
    (getDataPass collDelayed fetchNone).dropLog = [["EEG01"]] := by
  decide

/-- C5 counterexample: with 200 epochs of 8 splittable bytes each
(`total = 1600`), overhead 500 and split size 508, the split size is not below
the minimum `1600 / 200 + 500 = 508`, yet the save fails (201st-file guard:
`ceil(1600 / 8) = 200 > 100` parts) instead of writing `ceil` parts as the
claim states. -/
theorem c5_split_counterexample :
    saveSplit 1600 500 200 508 = .error (.tooMany 200) ∧ ¬ (508 < 1600 / 200 + 500) := by
  decide

/-- C9 counterexample: on `collAllBad` every epoch is rejected; the pass
completes (reasons recorded, `bad_dropped` latched) with zero good epochs and
no error is raised, contradicting the claim that zero good epochs remaining
after rejection is itself an error. -/
theorem c9_zero_good_counterexample :
    (getDataPass collAllBad fetchNone).events = [] ∧
    (getDataPass collAllBad fetchNone).badDropped = true ∧
    (getDataPass collAllBad fetchNone).dropLog = [["EEG01"]] ∧
    (getDataPass collAllBad fetchNone).selection = [] ∧
    (getDataPass collAllBad fetchNone).data = some [] := by
  decide

end ConcreteEvaluation

/-- C7 amended: in delayed-projection mode with preloaded data, the rejection
policy is evaluated on the projected values while the stored/returned output is
the un-projected data (the matrix multiply is deferred for the output only). -/
theorem c7_delayed_amended (c : Collection) (fetch : Nat → Seg) (d : List Epoch)
    (hd : c.data = some d) (hdel : c.delayedProj = true) :
    (∀ i, rejectionSeg c fetch i = projectEpoch c (.seg (d.getD i []))) ∧
    (∀ i, outputSeg c fetch i = .seg (d.getD i [])) := by
  constructor
  · intro i
    simp [rejectionSeg, hd, hdel]
  · intro i
    simp [outputSeg, hd, hdel]

theorem c7_delayed_amended_witness :
    rejectionSeg collDelayed fetchNone 0 = projectEpoch collDelayed (.seg [[0, 100]]) ∧
    outputSeg collDelayed fetchNone 0 = .seg [[0, 100]] :=
  ⟨(c7_delayed_amended collDelayed fetchNone [[[0, 100]]] rfl rfl).1 0,
   (c7_delayed_amended collDelayed fetchNone [[[0, 100]]] rfl rfl).2 0⟩

/-! ## C10: `drop` bounds checking -/

/-- C10: a `drop` call whose indices (after adding `len(events)` to negative
entries) contain one outside `[0, len(events))` raises `IndexError` and
produces no mutated state (the bounds check precedes any mutation); when all
adjusted indices are in range the call succeeds with the set-difference keep;
in-range negative indices count from the end. -/
theorem c10_drop_bounds (c : Collection) (indices : List Int) (reason : String) :
    ((∃ i ∈ indices, adjustIdx c.events.length i < 0 ∨
        (c.events.length : Int) ≤ adjustIdx c.events.length i) →
      dropOp c indices reason = .error "IndexError: epoch index out of bounds") ∧
    ((∀ i ∈ indices, 0 ≤ adjustIdx c.events.length i ∧
        adjustIdx c.events.length i < (c.events.length : Int)) →
      dropOp c indices reason = .ok (getitemModel c
        ((List.range c.events.length).filter
          (fun i => !(decide (Int.ofNat i ∈ indices.map (adjustIdx c.events.length)))))
        (some reason))) ∧
    (∀ i : Int, i < 0 → adjustIdx c.events.length i = i + c.events.length) := by
  refine ⟨fun hex => ?_, fun hall => ?_, fun i hi => ?_⟩
  · obtain ⟨i, hi, hb⟩ := hex
    have hany : (indices.map (adjustIdx c.events.length)).any
        (fun t => decide (t < 0) || decide ((c.events.length : Int) ≤ t)) = true := by
      simp only [List.any_eq_true, List.mem_map]
      refine ⟨adjustIdx c.events.length i, ⟨i, hi, rfl⟩, ?_⟩
      rcases hb with h | h <;> simp [h]
    simp [dropOp, hany]
  · have hany : (indices.map (adjustIdx c.events.length)).any
        (fun t => decide (t < 0) || decide ((c.events.length : Int) ≤ t)) = false := by
      simp only [List.any_eq_false, List.mem_map]
      rintro t ⟨i, hi, rfl⟩
      have := hall i hi
      simp only [Bool.or_eq_true, decide_eq_true_eq, not_or]
      omega
    simp [dropOp, hany]
  · simp [adjustIdx, hi]

theorem c10_drop_bounds_witness :
    dropOp collW [(-2 : Int)] "USER" = .error "IndexError: epoch index out of bounds" :=
  (c10_drop_bounds collW [(-2 : Int)] "USER").1 ⟨-2, by decide, by decide⟩

/-! ## C5: save splitting -/

theorem chunksFrom_length (sizes : List Nat) (s : Nat) :
    (chunksFrom sizes s).length = sizes.length := by
  induction sizes generalizing s with
  | nil => rfl
  | cons sz rest ih => simp [chunksFrom, ih]

theorem chunksFrom_flatten (sizes : List Nat) (s : Nat) :
    (chunksFrom sizes s).flatten = (List.range sizes.sum).map (fun x => s + x) := by
  induction sizes generalizing s with
  | nil => simp [chunksFrom]
  | cons sz rest ih =>
    simp only [chunksFrom, List.flatten_cons, ih, List.sum_cons, List.range_add,
      List.map_append, List.map_map]
    congr 1
    apply List.map_congr_left
    intro x _
    simp [Function.comp]
    omega

theorem mem_chunksFrom_length (sizes : List Nat) (s : Nat) (g : List Nat)
    (h : g ∈ chunksFrom sizes s) : g.length ∈ sizes := by
  induction sizes generalizing s with
  | nil => simp [chunksFrom] at h
  | cons sz rest ih =>
    simp only [chunksFrom, List.mem_cons] at h
    rcases h with h | h
    · subst h; simp
    · exact List.mem_cons_of_mem _ (ih _ h)

theorem sum_map_add (l : List Nat) (f g : Nat → Nat) :
    (l.map (fun i => f i + g i)).sum = (l.map f).sum + (l.map g).sum := by
  induction l with
  | nil => rfl
  | cons a t ih => simp [ih]; omega

theorem sum_map_const (l : List Nat) (k : Nat) :
    (l.map (fun _ => k)).sum = l.length * k := by
  induction l with
  | nil => simp
  | cons a t ih => simp [ih]; ring

theorem sum_range_ite (k m : Nat) :
    ((List.range k).map (fun i => if i < m then 1 else 0)).sum = min m k := by
  induction k with
  | zero => simp
  | succ k ih =>
    rw [List.range_succ, List.map_append, List.sum_append, ih]
    simp only [List.map_cons, List.map_nil, List.sum_cons, List.sum_nil]
    rcases Nat.lt_or_ge k m with h | h
    · rw [if_pos h]
      omega
    · rw [if_neg (by omega)]
      omega

theorem splitSizes_sum (n k : Nat) (hk : 0 < k) : (splitSizes n k).sum = n := by
  unfold splitSizes
  rw [sum_map_add, sum_map_const, List.length_range, sum_range_ite]
  have h1 := Nat.div_add_mod n k
  have h2 : n % k < k := Nat.mod_lt n hk
  have h3 : min (n % k) k = n % k := by omega
  omega

theorem splitSizes_mem (n k x : Nat) (h : x ∈ splitSizes n k) :
    x = n / k ∨ x = n / k + 1 := by
  unfold splitSizes at h
  simp only [List.mem_map] at h
  obtain ⟨i, _, rfl⟩ := h
  rcases Nat.lt_or_ge i (n % k) with h | h <;> simp [h]

theorem nPartsOf_eq_ceil (t o s : Nat) (h : o < s) :
    nPartsOf t o s = max ((t + (s - o) - 1) / (s - o)) 1 := by
  have hd : 0 < s - o := by omega
  unfold nPartsOf
  cases t with
  | zero =>
    have h0 : (0 + (s - o) - 1) / (s - o) = 0 := Nat.div_eq_of_lt (by omega)
    have h1 : ((0 : Nat) - 1) / (s - o) = 0 := by simp
    rw [h0, h1]
    decide
  | succ t =>
    have h1 : (t + 1 + (s - o) - 1) = t + (s - o) := by omega
    have h2 : (t + (s - o)) / (s - o) = t / (s - o) + 1 := Nat.add_div_right t hd
    have h3 : t + 1 - 1 = t := by omega
    rw [h1, h2, h3]

/-- C5 amended: the save fails when the split size is below
`total // n_epochs + overhead`, reporting that minimum; otherwise, when
`ceil(total / (split - overhead))` is at most 100 the epoch indices are
partitioned into exactly that many contiguous near-equal sequentially-numbered
parts (next-part reference on all but the last); when it exceeds 100 the save
fails with the too-many-parts error instead. -/
theorem c5_split_amended (totalSize overSize nEpochs splitSize : Nat)
    (hep : 0 < nEpochs) (hov : overSize < splitSize) :
    (splitSize < totalSize / nEpochs + overSize →
      saveSplit totalSize overSize nEpochs splitSize =
        .error (.tooSmall (totalSize / nEpochs + overSize))) ∧
    (totalSize / nEpochs + overSize ≤ splitSize →
      (max ((totalSize + (splitSize - overSize) - 1) / (splitSize - overSize)) 1 ≤ 100 →
        saveSplit totalSize overSize nEpochs splitSize =
          .ok (arraySplit nEpochs
            (max ((totalSize + (splitSize - overSize) - 1) / (splitSize - overSize)) 1)) ∧
        ∀ nP, nP = max ((totalSize + (splitSize - overSize) - 1) / (splitSize - overSize)) 1 →
          (arraySplit nEpochs nP).length = nP ∧
          (arraySplit nEpochs nP).flatten = List.range nEpochs ∧
          (∀ g ∈ arraySplit nEpochs nP,
            g.length = nEpochs / nP ∨ g.length = nEpochs / nP + 1) ∧
          (∀ i, i < nP → (partNextRef i nP = none ↔ i = nP - 1))) ∧
      (100 < max ((totalSize + (splitSize - overSize) - 1) / (splitSize - overSize)) 1 →
        saveSplit totalSize overSize nEpochs splitSize =
          .error (.tooMany (max ((totalSize + (splitSize - overSize) - 1) /
            (splitSize - overSize)) 1)))) := by
  have hne : (nEpochs == 0) = false := by simp; omega
  have hceil := nPartsOf_eq_ceil totalSize overSize splitSize hov
  refine ⟨fun hsmall => ?_, fun hbig => ⟨fun h100 => ⟨?_, ?_⟩, fun h100 => ?_⟩⟩
  · simp [saveSplit, hne, hsmall]
  · have hnotlt : ¬ (splitSize < totalSize / nEpochs + overSize) := by omega
    simp [saveSplit, hne, hnotlt, hceil, Nat.not_lt.mpr h100]
  · rintro nP rfl
    have hP : 0 < max ((totalSize + (splitSize - overSize) - 1) / (splitSize - overSize)) 1 :=
      lt_of_lt_of_le Nat.zero_lt_one (le_max_right _ _)
    refine ⟨?_, ?_, fun g hg => ?_, fun i hi => ?_⟩
    · rw [arraySplit, chunksFrom_length]
      simp [splitSizes]
    · rw [arraySplit, chunksFrom_flatten, splitSizes_sum _ _ hP]
      simp
    · rcases splitSizes_mem _ _ _ (mem_chunksFrom_length _ _ _ hg) with h | h
      · exact Or.inl h
      · exact Or.inr h
    · unfold partNextRef
      rcases Nat.lt_or_ge i
        (max ((totalSize + (splitSize - overSize) - 1) / (splitSize - overSize)) 1 - 1)
        with h | h <;> simp [h] <;> omega
  · have hnotlt : ¬ (splitSize < totalSize / nEpochs + overSize) := by omega
    simp [saveSplit, hne, hnotlt, hceil, h100, Nat.not_le.mpr h100]

/-! ## Drop-log bookkeeping lemmas -/

theorem getD_set_ne {α : Type} (l : List α) (i j : Nat) (a d : α) (h : i ≠ j) :
    (l.set i a).getD j d = l.getD j d := by
  induction l generalizing i j with
  | nil => rfl
  | cons x xs ih =>
    cases i with
    | zero =>
      cases j with
      | zero => exact absurd rfl h
      | succ j => simp
    | succ i =>
      cases j with
      | zero => simp
      | succ j => simpa using ih i j (fun he => h (by rw [he]))

theorem getD_set_self {α : Type} (l : List α) (i : Nat) (a d : α) (h : i < l.length) :
    (l.set i a).getD i d = a := by
  induction l generalizing i with
  | nil => simp at h
  | cons x xs ih =>
    cases i with
    | zero => simp
    | succ i => simpa using ih i (by simpa using h)

theorem bumpAll_nil (dl : List (List String)) : bumpAll dl [] = dl := rfl

theorem bumpAll_cons (dl : List (List String)) (p : Nat × List String)
    (ups : List (Nat × List String)) :
    bumpAll dl (p :: ups) = bumpAll (dl.set p.1 (dl.getD p.1 [] ++ p.2)) ups := rfl

theorem bumpAll_length (ups : List (Nat × List String)) (dl : List (List String)) :
    (bumpAll dl ups).length = dl.length := by
  induction ups generalizing dl with
  | nil => rfl
  | cons p ups ih => rw [bumpAll_cons, ih, List.length_set]

theorem bumpAll_getD_notmem (ups : List (Nat × List String)) (dl : List (List String))
    (k : Nat) (h : ∀ p ∈ ups, p.1 ≠ k) :
    (bumpAll dl ups).getD k [] = dl.getD k [] := by
  induction ups generalizing dl with
  | nil => rfl
  | cons p ups ih =>
    rw [bumpAll_cons, ih _ (fun q hq => h q (List.mem_cons_of_mem _ hq)),
        getD_set_ne _ _ _ _ _ (h p (List.mem_cons_self _ _))]

theorem bumpAll_getD_mem (ups : List (Nat × List String)) (dl : List (List String))
    (k : Nat) (e : List String) (hk : k < dl.length) (hmem : (k, e) ∈ ups)
    (hnd : (ups.map Prod.fst).Nodup) :
    (bumpAll dl ups).getD k [] = dl.getD k [] ++ e := by
  induction ups generalizing dl with
  | nil => simp at hmem
  | cons p ups ih =>
    have hnd' := List.nodup_cons.mp (show (p.1 :: ups.map Prod.fst).Nodup from hnd)
    rcases List.mem_cons.mp hmem with heq | hmem'
    · have hknot : ∀ q ∈ ups, q.1 ≠ k := by
        intro q hq hqk
        apply hnd'.1
        have hmm := List.mem_map_of_mem Prod.fst hq
        rw [hqk] at hmm
        rw [← heq]
        exact hmm
      rw [bumpAll_cons, bumpAll_getD_notmem _ _ _ hknot, ← heq]
      exact getD_set_self _ _ _ _ hk
    · have hp1 : p.1 ≠ k := by
        intro hpk
        exact hnd'.1 (hpk ▸ (List.mem_map_of_mem Prod.fst hmem' : (k, e).1 ∈ ups.map Prod.fst))
      rw [bumpAll_cons, ih _ (by rw [List.length_set]; exact hk) hmem' hnd'.2,
          getD_set_ne _ _ _ _ _ hp1]

/-! ## Nodup and counting lemmas -/

theorem nodup_getD_inj (sel : List Nat) (hnd : sel.Nodup) {i j : Nat}
    (hi : i < sel.length) (hj : j < sel.length)
    (he : sel.getD i 0 = sel.getD j 0) : i = j := by
  rw [List.getD_eq_get _ _ hi, List.getD_eq_get _ _ hj] at he
  have := (hnd.get_inj_iff).mp he
  simpa using this

theorem getD_mem_self (sel : List Nat) {i : Nat} (hi : i < sel.length) :
    sel.getD i 0 ∈ sel := by
  rw [List.getD_eq_get _ _ hi]
  exact List.get_mem _ _ _

theorem mem_exists_getD (sel : List Nat) {k : Nat} (hk : k ∈ sel) :
    ∃ i, i < sel.length ∧ sel.getD i 0 = k := by
  obtain ⟨⟨i, hi⟩, he⟩ := List.mem_iff_get.mp hk
  exact ⟨i, hi, by rw [List.getD_eq_get _ _ hi]; exact he⟩

theorem countP_congr_mem {α : Type} (l : List α) (p q : α → Bool)
    (h : ∀ a ∈ l, p a = q a) : l.countP p = l.countP q := by
  induction l with
  | nil => rfl
  | cons a t ih =>
    rw [List.countP_cons, List.countP_cons, ih (fun x hx => h x (List.mem_cons_of_mem _ hx)),
        h a (List.mem_cons_self _ _)]

theorem countP_getD {α : Type} (p : α → Bool) (d : α) (l : List α) :
    l.countP p = (List.range l.length).countP (fun k => p (l.getD k d)) := by
  induction l with
  | nil => rfl
  | cons a t ih =>
    rw [List.countP_cons, List.length_cons, List.range_succ_eq_map, List.countP_cons,
        List.countP_map]
    have h1 : ((fun k => p ((a :: t).getD k d)) ∘ Nat.succ) = fun k => p (t.getD k d) := by
      funext k
      simp
    rw [h1, ← ih]
    simp

theorem length_filter_range_mem (n : Nat) (sel : List Nat) (hnd : sel.Nodup)
    (hb : ∀ s ∈ sel, s < n) :
    ((List.range n).filter (fun k => decide (k ∈ sel))).length = sel.length := by
  have h1 : ((List.range n).filter (fun k => decide (k ∈ sel))).Nodup :=
    List.Nodup.filter _ (List.nodup_range n)
  have hmemiff : ∀ x, x ∈ (List.range n).filter (fun k => decide (k ∈ sel)) ↔ x ∈ sel := by
    intro x
    simp only [List.mem_filter, List.mem_range, decide_eq_true_eq]
    exact ⟨fun hx => hx.2, fun hx => ⟨hb x hx, hx⟩⟩
  rw [← List.toFinset_card_of_nodup h1, ← List.toFinset_card_of_nodup hnd]
  congr 1
  ext x
  simp only [List.mem_toFinset]
  exact hmemiff x

theorem wfParts_claimInv (sel : List Nat) (dl : List (List String)) (nEv : Nat)
    (h : wfParts sel dl nEv) :
    sel.length = nEv ∧ nEv ≤ dl.length ∧ dl.countP (fun e => e.isEmpty) = sel.length := by
  obtain ⟨hnd, hlen, hb, hchar⟩ := h
  refine ⟨hlen, ?_, ?_⟩
  · rw [← hlen]
    calc sel.length = sel.toFinset.card := (List.toFinset_card_of_nodup hnd).symm
    _ ≤ (Finset.range dl.length).card := by
        apply Finset.card_le_card
        intro x hx
        simp only [List.mem_toFinset] at hx
        simpa [Finset.mem_range] using hb x hx
    _ = dl.length := Finset.card_range _
  · rw [countP_getD (fun e => e.isEmpty) ([] : List String) dl,
        countP_congr_mem _ _ (fun k => decide (k ∈ sel)) ?_]
    · rw [List.countP_eq_length_filter]
      exact length_filter_range_mem _ _ hnd hb
    · intro k hk
      have hk' : k < dl.length := List.mem_range.mp hk
      by_cases hmem : k ∈ sel
      · have he : (dl.getD k []).isEmpty = true := (hchar k hk').mpr hmem
        rw [he]
        simp [hmem]
      · have he : (dl.getD k []).isEmpty = false := by
          rcases Bool.eq_false_or_eq_true ((dl.getD k []).isEmpty) with h' | h'
          · exact absurd ((hchar k hk').mp h') hmem
          · exact h'
        rw [he]
        simp [hmem]

theorem wf_claimInv (c : Collection) (h : wf c) : claimInv c := wfParts_claimInv _ _ _ h

theorem isGoodEpoch_bad_ne_nil (c : Collection) (s : Seg)
    (h : (isGoodEpoch c s).1 = false) : (isGoodEpoch c s).2 ≠ [] := by
  cases s with
  | excluded r => simp [isGoodEpoch]
  | noData => simp [isGoodEpoch]
  | seg e =>
    simp only [isGoodEpoch] at h ⊢
    by_cases h1 : segTimes e < c.nTimes
    · simp [h1]
    · rw [if_neg h1] at h ⊢
      by_cases h2 : (c.reject.isNone && c.flat.isNone) = true
      · rw [if_pos h2] at h
        simp at h
      · rw [if_neg h2] at h ⊢
        intro hnil
        simp only [isGoodFull] at h hnil
        rw [hnil] at h
        simp at h

/-! ## The master restriction lemma -/

/-- Restricting the selection to kept positions while appending non-empty
reason lists exactly at the removed epochs' original indices preserves
well-formedness.  Every mutation of the source follows this pattern. -/
theorem wfParts_restrict (sel : List Nat) (dl : List (List String)) (nEv : Nat)
    (hwf : wfParts sel dl nEv)
    (keep : List Nat) (hkn : keep.Nodup) (hkb : ∀ i ∈ keep, i < sel.length)
    (ups : List (Nat × List String))
    (hsites : ∀ k, (∃ e, (k, e) ∈ ups) ↔ ∃ i, i < sel.length ∧ i ∉ keep ∧ sel.getD i 0 = k)
    (hnd : (ups.map Prod.fst).Nodup)
    (hne : ∀ p ∈ ups, p.2 ≠ []) :
    wfParts (keep.map (fun i => sel.getD i 0)) (bumpAll dl ups) keep.length := by
  obtain ⟨hselnd, hlen, hb, hchar⟩ := hwf
  refine ⟨?_, by simp, ?_, ?_⟩
  · exact List.Nodup.map_on
      (fun x hx y hy he => nodup_getD_inj sel hselnd (hkb x hx) (hkb y hy) he) hkn
  · intro s hs
    rw [bumpAll_length]
    obtain ⟨i, hi, rfl⟩ := List.mem_map.mp hs
    exact hb _ (getD_mem_self sel (hkb i hi))
  · intro k hk
    rw [bumpAll_length] at hk
    by_cases hksel : k ∈ sel
    · obtain ⟨i, hilt, hieq⟩ := mem_exists_getD sel hksel
      by_cases hikeep : i ∈ keep
      · have hnosite : ∀ p ∈ ups, p.1 ≠ k := by
          intro p hp hpk
          obtain ⟨j, hjlt, hjnk, hjeq⟩ := (hsites k).mp ⟨p.2, by rw [← hpk]; simpa using hp⟩
          exact hjnk (nodup_getD_inj sel hselnd hjlt hilt (hjeq.trans hieq.symm) ▸ hikeep)
        rw [bumpAll_getD_notmem _ _ _ hnosite]
        have hempty := (hchar k hk).mpr hksel
        have hmemnew : k ∈ keep.map (fun i => sel.getD i 0) :=
          List.mem_map.mpr ⟨i, hikeep, hieq⟩
        exact ⟨fun _ => hmemnew, fun _ => hempty⟩
      · obtain ⟨e, hmem⟩ := (hsites k).mpr ⟨i, hilt, hikeep, hieq⟩
        rw [bumpAll_getD_mem _ _ _ _ hk hmem hnd]
        have hplus : (dl.getD k [] ++ e).isEmpty = false := by
          have hene : e ≠ [] := hne (k, e) hmem
          rcases List.isEmpty_eq_false.mpr (fun hc => hene (List.append_eq_nil.mp hc).2) with h'
          exact h'
        rw [hplus]
        simp only [Bool.false_eq_true, false_iff]
        intro hmemnew
        obtain ⟨j, hjkeep, hjeq⟩ := List.mem_map.mp hmemnew
        exact hikeep
          (nodup_getD_inj sel hselnd (hkb j hjkeep) hilt (hjeq.trans hieq.symm) ▸ hjkeep)
    · have hnosite : ∀ p ∈ ups, p.1 ≠ k := by
        intro p hp hpk
        obtain ⟨j, hjlt, _, hjeq⟩ := (hsites k).mp ⟨p.2, by rw [← hpk]; simpa using hp⟩
        exact hksel (hjeq ▸ getD_mem_self sel hjlt)
      rw [bumpAll_getD_notmem _ _ _ hnosite]
      constructor
      · intro he
        exact absurd ((hchar k hk).mp he) hksel
      · intro hmemnew
        obtain ⟨j, hjkeep, hjeq⟩ := List.mem_map.mp hmemnew
        exact absurd (hjeq ▸ getD_mem_self sel (hkb j hjkeep)) hksel

/-! ## Well-formedness preservation of each operation -/

theorem wf_getitem_keep (c : Collection) (hwf : wf c) (keep : List Nat) (r : String)
    (hkn : keep.Nodup) (hkb : ∀ i ∈ keep, i < c.selection.length) :
    wf (getitemModel c keep (some r)) := by
  show wfParts _ _ _
  simp only [getitemModel, List.length_map]
  exact wfParts_restrict c.selection c.dropLog c.events.length hwf keep hkn hkb
    (((List.range c.selection.length).filter (fun i => !(decide (i ∈ keep)))).map
      (fun i => (c.selection.getD i 0, [r])))
    (by
      intro k
      constructor
      · rintro ⟨e, hmem⟩
        obtain ⟨i, hi, heq⟩ := List.mem_map.mp hmem
        have h1 := List.mem_filter.mp hi
        have h2 : i < c.selection.length := List.mem_range.mp h1.1
        have h3 : i ∉ keep := by simpa using h1.2
        exact ⟨i, h2, h3, by rw [← (Prod.mk.injEq _ _ _ _).mp heq |>.1]⟩
      · rintro ⟨i, hi, hik, heq⟩
        refine ⟨[r], List.mem_map.mpr ⟨i, ?_, by rw [heq]⟩⟩
        refine List.mem_filter.mpr ⟨List.mem_range.mpr hi, by simpa using hik⟩)
    (by
      rw [List.map_map]
      have hmm : (Prod.fst ∘ fun i => (c.selection.getD i 0, [r])) =
          fun i => c.selection.getD i 0 := rfl
      rw [hmm]
      apply List.Nodup.map_on
      · intro x hx y hy he
        have hx' := List.mem_range.mp (List.mem_filter.mp hx).1
        have hy' := List.mem_range.mp (List.mem_filter.mp hy).1
        exact nodup_getD_inj c.selection hwf.1 hx' hy' he
      · exact List.Nodup.filter _ (List.nodup_range _))
    (by
      intro p hp
      obtain ⟨i, _, heq⟩ := List.mem_map.mp hp
      rw [← heq]
      simp)

theorem wf_dropOp (c : Collection) (indices : List Int) (reason : String) (c' : Collection)
    (hwf : wf c) (h : dropOp c indices reason = .ok c') : wf c' := by
  simp only [dropOp] at h
  split at h
  · exact absurd h (by simp)
  · rw [Except.ok.injEq] at h
    subst h
    apply wf_getitem_keep c hwf _ reason
    · exact List.Nodup.filter _ (List.nodup_range _)
    · intro i hi
      have := List.mem_range.mp (List.mem_filter.mp hi).1
      have hlen : c.selection.length = c.events.length := hwf.2.1
      omega

theorem wf_getDataPass (c : Collection) (fetch : Nat → Seg) (hwf : wf c) :
    wf (getDataPass c fetch) := by
  by_cases hbd : c.badDropped
  · simpa [getDataPass, hbd] using hwf
  · simp only [Bool.not_eq_true] at hbd
    show wfParts _ _ _
    simp only [getDataPass, hbd, Bool.false_eq_true, if_false, getitemModel, List.length_map]
    exact wfParts_restrict c.selection c.dropLog c.events.length hwf
      ((List.range c.selection.length).filter
        (fun i => (isGoodEpoch c (rejectionSeg c fetch i)).1))
      (List.Nodup.filter _ (List.nodup_range _))
      (fun i hi => List.mem_range.mp (List.mem_filter.mp hi).1)
      (((List.range c.selection.length).filter
        (fun i => !(isGoodEpoch c (rejectionSeg c fetch i)).1)).map
        (fun i => (c.selection.getD i 0, (isGoodEpoch c (rejectionSeg c fetch i)).2)))
      (by
        intro k
        constructor
        · rintro ⟨e, hmem⟩
          obtain ⟨i, hi, heq⟩ := List.mem_map.mp hmem
          have h1 := List.mem_filter.mp hi
          have h2 : i < c.selection.length := List.mem_range.mp h1.1
          refine ⟨i, h2, ?_, by rw [← (Prod.mk.injEq _ _ _ _).mp heq |>.1]⟩
          intro hk
          have := (List.mem_filter.mp hk).2
          simp only [Bool.not_eq_true'] at h1
          rw [h1.2] at this
          exact Bool.false_ne_true this
        · rintro ⟨i, hi, hik, heq⟩
          have hbad : (isGoodEpoch c (rejectionSeg c fetch i)).1 = false := by
            rcases Bool.eq_false_or_eq_true ((isGoodEpoch c (rejectionSeg c fetch i)).1)
              with h' | h'
            · exact absurd (List.mem_filter.mpr ⟨List.mem_range.mpr hi, h'⟩) hik
            · exact h'
          refine ⟨(isGoodEpoch c (rejectionSeg c fetch i)).2,
            List.mem_map.mpr ⟨i, ?_, by rw [heq]⟩⟩
          exact List.mem_filter.mpr ⟨List.mem_range.mpr hi, by rw [hbad]; rfl⟩)
      (by
        rw [List.map_map]
        apply List.Nodup.map_on
        · intro x hx y hy he
          have hx' := List.mem_range.mp (List.mem_filter.mp hx).1
          have hy' := List.mem_range.mp (List.mem_filter.mp hy).1
          exact nodup_getD_inj c.selection hwf.1 hx' hy'
            (by simpa using he)
        · exact List.Nodup.filter _ (List.nodup_range _))
      (by
        intro p hp
        obtain ⟨i, hi, heq⟩ := List.mem_map.mp hp
        have h1 := List.mem_filter.mp hi
        simp only [Bool.not_eq_true'] at h1
        rw [← heq]
        exact isGoodEpoch_bad_ne_nil c _ h1.2)

theorem wf_dropBadExisting (c : Collection) (fetch : Nat → Seg) (hwf : wf c) :
    wf (dropBadExisting c fetch) := by
  by_cases hbd : c.badDropped
  · simpa [dropBadExisting, hbd] using hwf
  · simp only [Bool.not_eq_true] at hbd
    simpa [dropBadExisting, hbd] using wf_getDataPass c fetch hwf

theorem wf_rejectSetup (c : Collection) (r f : Option (List (String × ℚ))) (c' : Collection)
    (hwf : wf c) (h : rejectSetup c r f = .ok c') : wf c' := by
  simp only [rejectSetup] at h
  repeat' split at h
  all_goals try exact Except.noConfusion h
  all_goals rw [Except.ok.injEq] at h
  all_goals subst h
  all_goals exact hwf

/-! ## Construction well-formedness -/

theorem insertInt_perm (x : Int) (l : List Int) : (insertInt x l).Perm (x :: l) := by
  induction l with
  | nil => exact List.Perm.refl _
  | cons y ys ih =>
    show (if x ≤ y then x :: y :: ys else y :: insertInt x ys).Perm (x :: y :: ys)
    split
    · exact List.Perm.refl _
    · exact (ih.cons y).trans (List.Perm.swap x y ys)

theorem sortInts_perm (l : List Int) : (sortInts l).Perm l := by
  induction l with
  | nil => exact List.Perm.refl _
  | cons x xs ih =>
    show (insertInt x (sortInts xs)).Perm (x :: xs)
    exact (insertInt_perm x (sortInts xs)).trans (ih.cons x)

theorem getD_map_range {α : Type} (f : Nat → α) (n k : Nat) (d : α) (hk : k < n) :
    ((List.range n).map f).getD k d = f k := by
  have hb : k < ((List.range n).map f).length := by simpa using hk
  rw [List.getD_eq_getElem _ _ hb]
  simp

/-- The initial selection and drop log built by the constructor
(epochs.py:396-415) are well-formed. -/
theorem wfParts_init_gen (n : Nat) (p : Nat → Bool) :
    wfParts ((List.range n).filter p)
      ((List.range n).map (fun k =>
        if k ∈ (List.range n).filter p then ([] : List String) else ["IGNORED"]))
      ((List.range n).filter p).length := by
  refine ⟨List.Nodup.filter _ (List.nodup_range n), rfl, ?_, ?_⟩
  · intro s hs
    have := List.mem_range.mp (List.mem_filter.mp hs).1
    simpa using this
  · intro k hk
    have hkn : k < n := by simpa using hk
    rw [getD_map_range _ _ _ _ hkn]
    by_cases hmem : k ∈ (List.range n).filter p
    · simp [hmem]
    · simp [hmem]

/-- The shared shape of `drop`/`merge` duplicate handling: keep a set of
positions and record the removed selection entries. -/
theorem wfParts_keep_general (sel : List Nat) (dl : List (List String)) (nEv : Nat)
    (hwf : wfParts sel dl nEv) (keep : List Nat) (hkn : keep.Nodup)
    (hkb : ∀ i ∈ keep, i < sel.length) (reason : String) :
    wfParts (keep.map (fun i => sel.getD i 0))
      (bumpAll dl ((sel.filter (fun s =>
        !(decide (s ∈ keep.map (fun i => sel.getD i 0))))).map (fun s => (s, [reason]))))
      keep.length := by
  apply wfParts_restrict sel dl nEv hwf keep hkn hkb
  · intro k
    constructor
    · rintro ⟨e, hmem⟩
      obtain ⟨s, hs, heq⟩ := List.mem_map.mp hmem
      obtain ⟨hssel, hsnot⟩ := List.mem_filter.mp hs
      have hks : s = k := ((Prod.mk.injEq _ _ _ _).mp heq).1
      subst hks
      obtain ⟨i, hilt, hieq⟩ := mem_exists_getD sel hssel
      refine ⟨i, hilt, ?_, hieq⟩
      intro hik
      have hmm : s ∈ keep.map (fun i => sel.getD i 0) := List.mem_map.mpr ⟨i, hik, hieq⟩
      simp only [Bool.not_eq_true', decide_eq_false_iff_not] at hsnot
      exact hsnot hmm
    · rintro ⟨i, hilt, hik, hieq⟩
      refine ⟨[reason], List.mem_map.mpr ⟨k, ?_, rfl⟩⟩
      refine List.mem_filter.mpr ⟨hieq ▸ getD_mem_self sel hilt, ?_⟩
      simp only [Bool.not_eq_true', decide_eq_false_iff_not]
      intro hknew
      obtain ⟨j, hjk, hjeq⟩ := List.mem_map.mp hknew
      exact hik (nodup_getD_inj sel hwf.1 (hkb j hjk) hilt (hjeq.trans hieq.symm) ▸ hjk)
  · have h2 : (((sel.filter (fun s =>
        !(decide (s ∈ keep.map (fun i => sel.getD i 0))))).map
          (fun s => (s, [reason]))).map Prod.fst) =
        sel.filter (fun s => !(decide (s ∈ keep.map (fun i => sel.getD i 0)))) := by
      rw [List.map_map]
      have h3 : (Prod.fst ∘ fun s : Nat => (s, ([reason] : List String))) =
          fun s : Nat => s := rfl
      rw [h3, List.map_id']
    rw [h2]
    exact List.Nodup.filter _ hwf.1
  · intro p hp
    obtain ⟨s, _, heq⟩ := List.mem_map.mp hp
    rw [← heq]
    simp

theorem uIdxs_nodup (samples : List Int) :
    ((sortInts samples.dedup).map (fun v => samples.indexOf v)).Nodup := by
  apply List.Nodup.map_on
  · intro x hx y hy he
    have hx' : x ∈ samples := List.mem_dedup.mp ((sortInts_perm _).mem_iff.mp hx)
    have hy' : y ∈ samples := List.mem_dedup.mp ((sortInts_perm _).mem_iff.mp hy)
    have hxl : samples.indexOf x < samples.length := List.indexOf_lt_length.mpr hx'
    have hyl : samples.indexOf y < samples.length := List.indexOf_lt_length.mpr hy'
    calc x = samples.get ⟨samples.indexOf x, hxl⟩ := (List.indexOf_get hxl).symm
    _ = samples.get ⟨samples.indexOf y, hyl⟩ := by simp only [he]
    _ = y := List.indexOf_get hyl
  · exact (sortInts_perm _).nodup_iff.mpr (List.nodup_dedup _)

theorem uIdxs_bounded (samples : List Int) (i : Nat)
    (hi : i ∈ (sortInts samples.dedup).map (fun v => samples.indexOf v)) :
    i < samples.length := by
  obtain ⟨v, hv, rfl⟩ := List.mem_map.mp hi
  exact List.indexOf_lt_length.mpr (List.mem_dedup.mp ((sortInts_perm _).mem_iff.mp hv))

/-- Handling repeated events (`_handle_event_repeated`) preserves well-formedness of
(selection, drop log, events). -/
theorem wf_handleEventRepeated (events : List Event) (eventId : List (String × Int))
    (rep : String) (sel : List Nat) (dl : List (List String))
    (out : List Event × List (String × Int) × List Nat × List (List String))
    (hwf : wfParts sel dl events.length)
    (h : handleEventRepeated events eventId rep sel dl = .ok out) :
    wfParts out.2.2.1 out.2.2.2 out.1.length := by
  simp only [handleEventRepeated] at h
  split at h
  · rw [Except.ok.injEq] at h
    subst h
    exact hwf
  · split at h
    · exact Except.noConfusion h
    · split at h
      · exact Except.noConfusion h
      · rw [Except.ok.injEq] at h
        subst h
        by_cases hrep : (rep == "drop") = true
        · simp only [hrep, if_true]
          rw [List.length_map]
          refine wfParts_keep_general sel dl events.length hwf _ ?_ ?_ "DROP DUPLICATE"
          · exact uIdxs_nodup (events.map (fun e => e.sample))
          · intro i hi
            have hib := uIdxs_bounded (events.map (fun e => e.sample)) i hi
            have hlen : sel.length = events.length := hwf.2.1
            simp only [List.length_map] at hib
            omega
        · simp only [hrep, Bool.false_eq_true, if_false, mergeEvents]
          rw [List.length_map]
          refine wfParts_keep_general sel dl events.length hwf _ ?_ ?_ "MERGE DUPLICATE"
          · exact List.Nodup.filter _ (List.nodup_range _)
          · intro i hi
            have hmem := List.mem_range.mp (List.mem_filter.mp hi).1
            have hlen : sel.length = events.length := hwf.2.1
            omega

/-- Construction (`BaseEpochs.__init__`) produces a well-formed collection. -/
theorem wf_mkCollection (t : Collection) (evs : List Event) (eventId : List (String × Int))
    (rep : String) (c0 : Collection) (h : mkCollection t evs eventId rep = .ok c0) :
    wf c0 := by
  simp only [mkCollection] at h
  split at h
  · exact Except.noConfusion h
  · rename_i ev' id' sel' dl' heq
    have hwf0 : wfParts
        ((List.range evs.length).filter
          (fun i => decide ((evs.getD i default).code ∈ eventId.map Prod.snd)))
        ((List.range evs.length).map (fun k =>
          if k ∈ (List.range evs.length).filter
            (fun i => decide ((evs.getD i default).code ∈ eventId.map Prod.snd))
          then ([] : List String) else ["IGNORED"]))
        (((List.range evs.length).filter
          (fun i => decide ((evs.getD i default).code ∈ eventId.map Prod.snd))).map
          (fun i => evs.getD i default)).length := by
      rw [List.length_map]
      exact wfParts_init_gen evs.length _
    have hwf' := wf_handleEventRepeated _ _ _ _ _ (ev', id', sel', dl') hwf0 heq
    split at h
    · exact Except.noConfusion h
    · split at h
      · split at h
        · rw [Except.ok.injEq] at h
          subst h
          exact hwf'
        · exact Except.noConfusion h
      · rw [Except.ok.injEq] at h
        subst h
        exact hwf'

/-! ## C1: the collection invariant -/

theorem wf_step (a b : Collection) (hwf : wf a) (h : Step a b) : wf b := by
  cases h with
  | getData fetch => exact wf_getDataPass _ _ hwf
  | dropBad fetch => exact wf_dropBadExisting _ _ hwf
  | drop indices reason c' hdrop => exact wf_dropOp _ _ _ _ hwf hdrop
  | equalize eventTimes method j c' hdrop => exact wf_dropOp _ _ _ _ hwf hdrop
  | setup r f c' hset => exact wf_rejectSetup _ _ _ _ hwf hset

theorem wf_reachable (a b : Collection) (hwf : wf a)
    (h : Relation.ReflTransGen Step a b) : wf b := by
  induction h with
  | refl => exact hwf
  | tail _ hstep ih => exact wf_step _ _ ih hstep

/-- C1: for every collection built by the constructor, at every observable
point after construction — including after `drop`, `drop_bad`,
`equalize_event_counts`, threshold setup, and data materialization —
`len(selection) = len(events)`, `len(drop_log) >= len(events)`, and the number
of empty `drop_log` entries equals `len(selection)`. -/
theorem c1_collection_invariant (t : Collection) (evs : List Event)
    (eventId : List (String × Int)) (eventRepeated : String) (c0 c : Collection)
    (h0 : mkCollection t evs eventId eventRepeated = .ok c0)
    (hr : Reachable c0 c) : claimInv c :=
  wf_claimInv _ (wf_reachable _ _ (wf_mkCollection _ _ _ _ _ h0) hr)

theorem c1_collection_invariant_witness : claimInv collW :=
  c1_collection_invariant tmplW [⟨0, 0, 1⟩] [("x", 1)] "error" collW collW
    (by decide) Relation.ReflTransGen.refl

/-! ## C3: threshold monotonicity -/

/-- C3: with previously applied thresholds, `_reject_setup` fails with the
irreversible-operation error when some reject key is set strictly above its
previously applied value (or, reject passing, some flat key strictly below),
leaving the installed thresholds in place; setting per-key thresholds that are
strictly tighter or equal (reject only decreases, flat only increases)
succeeds and installs them.  The validity side conditions (known channel-type
keys, channels available, non-negative values) are the earlier guards of the
same function. -/
theorem c3_threshold_monotonicity (c : Collection) (rej fl : List (String × ℚ))
    (hkeys : ∀ kv ∈ rej ++ fl, kv.1 ∈ c.typeIdx.map Prod.fst)
    (hchan : ∀ ti ∈ c.typeIdx, ti.2.isEmpty = true →
      (alookup rej ti.1).isSome = false ∧ ¬ (0 ≤ ((alookup fl ti.1).getD (-1))))
    (hvals : ∀ kv ∈ rej ++ fl, 0 ≤ kv.2) :
    ((∃ k ∈ rej.map Prod.fst ++ (c.reject.getD []).map Prod.fst,
        gtRej (alookup rej k) (alookup (c.reject.getD []) k) = true) →
      rejectSetup c (some rej) (some fl) = .error .irrevReject) ∧
    ((∀ k ∈ rej.map Prod.fst ++ (c.reject.getD []).map Prod.fst,
        gtRej (alookup rej k) (alookup (c.reject.getD []) k) = false) →
      ((∃ k ∈ fl.map Prod.fst ++ (c.flat.getD []).map Prod.fst,
          ltFlat (alookup fl k) (alookup (c.flat.getD []) k) = true) →
        rejectSetup c (some rej) (some fl) = .error .irrevFlat) ∧
      ((∀ k ∈ fl.map Prod.fst ++ (c.flat.getD []).map Prod.fst,
          ltFlat (alookup fl k) (alookup (c.flat.getD []) k) = false) →
        rejectSetup c (some rej) (some fl) =
          .ok { c with badDropped := false,
                       reject := if rej.isEmpty then none else some rej,
                       flat := if fl.isEmpty then none else some fl })) := by
  have hg1 : ((rej ++ fl).all (fun kv => decide (kv.1 ∈ c.typeIdx.map Prod.fst))) = true := by
    rw [List.all_eq_true]
    intro kv hkv
    exact decide_eq_true (hkeys kv hkv)
  have hg2 : (c.typeIdx.any fun ti => ti.2.isEmpty &&
      ((alookup rej ti.1).isSome || decide (0 ≤ (alookup fl ti.1).getD (-1)))) = false := by
    rw [List.any_eq_false]
    intro ti hti
    by_cases hemp : ti.2.isEmpty = true
    · obtain ⟨h1, h2⟩ := hchan ti hti hemp
      simp [hemp, h1, h2]
    · rw [Bool.not_eq_true] at hemp
      simp [hemp]
  have hg3 : ((rej ++ fl).any fun kv => decide (kv.2 < 0)) = false := by
    rw [List.any_eq_false]
    intro kv hkv
    simp only [decide_eq_true_eq, not_lt]
    exact hvals kv hkv
  refine ⟨fun hex => ?_, fun hall => ⟨fun hexf => ?_, fun hallf => ?_⟩⟩
  · have hg4 : ((rej.map Prod.fst ++ (c.reject.getD []).map Prod.fst).any
        (fun k => gtRej (alookup rej k) (alookup (c.reject.getD []) k))) = true :=
      List.any_eq_true.mpr hex
    simp [rejectSetup, hg1, hg2, hg3, hg4]
  · have hg4 : ((rej.map Prod.fst ++ (c.reject.getD []).map Prod.fst).any
        (fun k => gtRej (alookup rej k) (alookup (c.reject.getD []) k))) = false := by
      rw [List.any_eq_false]
      intro k hk
      rw [hall k hk]
      exact Bool.false_ne_true
    have hg5 : ((fl.map Prod.fst ++ (c.flat.getD []).map Prod.fst).any
        (fun k => ltFlat (alookup fl k) (alookup (c.flat.getD []) k))) = true :=
      List.any_eq_true.mpr hexf
    simp [rejectSetup, hg1, hg2, hg3, hg4, hg5]
  · have hg4 : ((rej.map Prod.fst ++ (c.reject.getD []).map Prod.fst).any
        (fun k => gtRej (alookup rej k) (alookup (c.reject.getD []) k))) = false := by
      rw [List.any_eq_false]
      intro k hk
      rw [hall k hk]
      exact Bool.false_ne_true
    have hg5 : ((fl.map Prod.fst ++ (c.flat.getD []).map Prod.fst).any
        (fun k => ltFlat (alookup fl k) (alookup (c.flat.getD []) k))) = false := by
      rw [List.any_eq_false]
      intro k hk
      rw [hallf k hk]
      exact Bool.false_ne_true
    simp [rejectSetup, hg1, hg2, hg3, hg4, hg5]

section ConcreteWitness

attribute [local semireducible] Rat.add Rat.mul Rat.sub Rat.inv Rat.ofScientific

theorem c3_threshold_monotonicity_witness :
    rejectSetup collThresh (some [("eeg", 1)]) (some []) =
      .ok { collThresh with badDropped := false, reject := some [("eeg", 1)], flat := none } := by
  have h := ((c3_threshold_monotonicity collThresh [("eeg", 1)] []
    (by decide) (by decide) (by decide)).2 (by decide)).2 (by decide)
  simpa using h

end ConcreteWitness

/-! ## C9 amended: rejection drops are not errors -/

theorem getDataPass_dropLog_bad (c : Collection) (fetch : Nat → Seg) (hwf : wf c)
    (hb : c.badDropped = false) (i : Nat) (hi : i < c.selection.length)
    (hbad : (isGoodEpoch c (rejectionSeg c fetch i)).1 = false) :
    (getDataPass c fetch).dropLog.getD (c.selection.getD i 0) [] =
      c.dropLog.getD (c.selection.getD i 0) [] ++
        (isGoodEpoch c (rejectionSeg c fetch i)).2 := by
  simp only [getDataPass, hb, Bool.false_eq_true, if_false, getitemModel]
  apply bumpAll_getD_mem
  · exact hwf.2.2.1 _ (getD_mem_self c.selection hi)
  · exact List.mem_map.mpr ⟨i,
      List.mem_filter.mpr ⟨List.mem_range.mpr hi, by rw [hbad]; rfl⟩, rfl⟩
  · rw [List.map_map]
    apply List.Nodup.map_on
    · intro x hx y hy he
      have hx' := List.mem_range.mp (List.mem_filter.mp hx).1
      have hy' := List.mem_range.mp (List.mem_filter.mp hy).1
      exact nodup_getD_inj c.selection hwf.1 hx' hy' (by simpa using he)
    · exact List.Nodup.filter _ (List.nodup_range _)

/-- C9 amended: rejection-driven epoch drops are not errors — the full pass
completes with `bad_dropped` latched, the offending reasons recorded in the
drop log, and the good subset retained; zero good epochs remaining after
rejection is not an error either (the pass still completes, with an empty good
set); only *construction* with zero matching events fails. -/
theorem c9_rejection_amended (c : Collection) (fetch : Nat → Seg)
    (hwf : wf c) (hb : c.badDropped = false) :
    (getDataPass c fetch).badDropped = true ∧
    (getDataPass c fetch).events.length =
      ((List.range c.selection.length).filter
        (fun i => (isGoodEpoch c (rejectionSeg c fetch i)).1)).length ∧
    (∀ i, i < c.selection.length → (isGoodEpoch c (rejectionSeg c fetch i)).1 = false →
      (isGoodEpoch c (rejectionSeg c fetch i)).2 ≠ [] ∧
      (getDataPass c fetch).dropLog.getD (c.selection.getD i 0) [] =
        c.dropLog.getD (c.selection.getD i 0) [] ++
          (isGoodEpoch c (rejectionSeg c fetch i)).2) ∧
    (∀ t evs eid rep c0, mkCollection t evs eid rep = .ok c0 → c0.events ≠ []) := by
  refine ⟨getDataPass_badDropped_eq c fetch hb, ?_, fun i hi hbad =>
    ⟨isGoodEpoch_bad_ne_nil c _ hbad, getDataPass_dropLog_bad c fetch hwf hb i hi hbad⟩, ?_⟩
  · simp [getDataPass, hb, getitemModel]
  · intro t evs eid rep c0 h
    simp only [mkCollection] at h
    split at h
    · exact Except.noConfusion h
    · rename_i ev' id' sel' dl' heq
      split at h
      · exact Except.noConfusion h
      · rename_i hne0
        have hlen : ev' ≠ [] := by
          intro hnil
          rw [hnil] at hne0
          simp at hne0
        split at h
        · split at h
          · rw [Except.ok.injEq] at h
            subst h
            exact hlen
          · exact Except.noConfusion h
        · rw [Except.ok.injEq] at h
          subst h
          exact hlen

theorem c9_rejection_amended_witness :
    (getDataPass collAllBad fetchNone).badDropped = true :=
  (c9_rejection_amended collAllBad fetchNone (by unfold wf wfParts; decide) rfl).1

theorem c5_split_amended_witness :
    saveSplit 80 20 10 40 = .ok (arraySplit 10 4) ∧ (arraySplit 10 4).flatten = List.range 10 :=
  ⟨(((c5_split_amended 80 20 10 40 (by decide) (by decide)).2 (by decide)).1 (by decide)).1,
   ((((c5_split_amended 80 20 10 40 (by decide) (by decide)).2 (by decide)).1
      (by decide)).2 4 (by decide)).2.1⟩

/-! ## C4: write/read round trip -/

/-- Scanning the tags written by `_save_part` recovers the written fields. -/
theorem readOne_savePart (c : Collection) (d : List Epoch) (single : Bool)
    (roundS : ℚ → ℚ) (cals : List ℚ) (first last : Int) (ref : Option (String × Nat))
    (hd : c.data = some d) (hlen : d.length = c.events.length) :
    readOne (savePart c single roundS cals first last ref) cals =
      .ok (c.events, c.baseline, c.selection, c.dropLog,
        (d.map (fun e => toPrec single roundS (scaleWrite cals e))).map
          (fun e => (e.zip cals).map (fun rc => rc.1.map (fun x => x * rc.2)))) := by
  have hlen' : ((d.map (fun e => toPrec single roundS (scaleWrite cals e))).length ≠
      c.events.length) = False := by
    simp [hlen]
  rcases hbase : c.baseline with _ | ⟨b1, b2⟩ <;>
    rcases hrj : (c.reject.isSome || c.flat.isSome) with _ | _ <;>
      rcases ref with _ | ⟨fn, fi⟩ <;>
        simp [savePart, readOne, readStep, ReadAcc.init, hd, hrj, hbase, hlen]

theorem forall2_map_of_mem {α β : Type} (R : β → α → Prop) (f : α → β) (l : List α)
    (h : ∀ x ∈ l, R (f x) x) : List.Forall₂ R (l.map f) l := by
  induction l with
  | nil => exact List.Forall₂.nil
  | cons a t ih =>
    exact List.Forall₂.cons (h a (List.mem_cons_self _ _))
      (ih (fun x hx => h x (List.mem_cons_of_mem _ hx)))

theorem roundtrip_row_double (ch : ℚ) (row : List ℚ) (hch : ch ≠ 0) :
    (row.map (fun x => x / ch)).map (fun x => x * ch) = row := by
  rw [List.map_map]
  conv_rhs => rw [← List.map_id row]
  apply List.map_congr_left
  intro x _
  simp [div_mul_cancel₀ x hch]

theorem roundtrip_epoch_double (cals : List ℚ) (e : Epoch) (hc : ∀ x ∈ cals, x ≠ 0) :
    ((scaleWrite cals e).zip cals).map (fun rc => rc.1.map (fun x => x * rc.2)) =
      (e.zip cals).map Prod.fst := by
  unfold scaleWrite
  induction e generalizing cals with
  | nil => simp
  | cons row rows ih =>
    cases cals with
    | nil => simp
    | cons ch ct =>
      simp only [List.zip_cons_cons, List.map_cons]
      congr 1
      · exact roundtrip_row_double ch row (hc ch (List.mem_cons_self _ _))
      · exact ih ct (fun x hx => hc x (List.mem_cons_of_mem _ hx))

theorem zip_map_fst_of_length {α β : Type} (l : List α) (m : List β)
    (h : l.length = m.length) : (l.zip m).map Prod.fst = l := by
  induction l generalizing m with
  | nil => simp
  | cons a t ih =>
    cases m with
    | nil => simp at h
    | cons b u =>
      simp only [List.zip_cons_cons, List.map_cons]
      exact congrArg _ (ih u (by simpa using h))

theorem roundtrip_row_single (eps : ℚ) (roundS : ℚ → ℚ) (ch : ℚ) (row : List ℚ)
    (hch : ch ≠ 0) (hround : ∀ x : ℚ, |roundS x - x| ≤ eps * |x|) :
    List.Forall₂ (approxEntry eps)
      (((row.map (fun x => x / ch)).map roundS).map (fun x => x * ch)) row := by
  rw [List.map_map, List.map_map]
  apply forall2_map_of_mem
  intro x _
  show |roundS (x / ch) * ch - x| ≤ eps * |x|
  have h1 := hround (x / ch)
  calc |roundS (x / ch) * ch - x|
      = |(roundS (x / ch) - x / ch) * ch| := by rw [sub_mul, div_mul_cancel₀ x hch]
    _ = |roundS (x / ch) - x / ch| * |ch| := abs_mul _ _
    _ ≤ (eps * |x / ch|) * |ch| := mul_le_mul_of_nonneg_right h1 (abs_nonneg ch)
    _ = eps * (|x / ch| * |ch|) := by ring
    _ = eps * |x| := by rw [← abs_mul, div_mul_cancel₀ x hch]

theorem roundtrip_epoch_single (eps : ℚ) (roundS : ℚ → ℚ) (cals : List ℚ) (e : Epoch)
    (hc : ∀ x ∈ cals, x ≠ 0) (hlen : e.length = cals.length)
    (hround : ∀ x : ℚ, |roundS x - x| ≤ eps * |x|) :
    List.Forall₂ (List.Forall₂ (approxEntry eps))
      (((toPrec true roundS (scaleWrite cals e)).zip cals).map
        (fun rc => rc.1.map (fun x => x * rc.2))) e := by
  unfold toPrec scaleWrite
  simp only [if_true, List.map_map]
  induction e generalizing cals with
  | nil => simp [List.Forall₂.nil]
  | cons row rows ih =>
    cases cals with
    | nil => simp at hlen
    | cons ch ct =>
      simp only [List.zip_cons_cons, List.map_cons]
      refine List.Forall₂.cons ?_ (ih ct (fun x hx => hc x (List.mem_cons_of_mem _ hx))
        (by simpa using hlen))
      have := roundtrip_row_single eps roundS ch row (hc ch (List.mem_cons_self _ _)) hround
      simpa [List.map_map] using this

/-- C4: writing a collection to the container format and reading it back
yields events, drop log, selection, baseline, and numeric data equal to the
original — exactly in double precision, and with relative error bounded by the
32-bit rounding bound in single precision. spec-modelled: the byte-level tag
codec and the JSON codec live outside `mne/epochs.py` and are treated as
faithful structured codecs (§4.4). -/
theorem c4_roundtrip (c : Collection) (d : List Epoch) (cals : List ℚ)
    (roundS : ℚ → ℚ) (eps : ℚ) (first last : Int) (ref : Option (String × Nat))
    (hd : c.data = some d)
    (hlen : d.length = c.events.length)
    (hch : ∀ e ∈ d, e.length = cals.length)
    (hcal : ∀ x ∈ cals, x ≠ 0)
    (hround : ∀ x : ℚ, |roundS x - x| ≤ eps * |x|) :
    readOne (savePart c false roundS cals first last ref) cals =
      .ok (c.events, c.baseline, c.selection, c.dropLog, d) ∧
    (∃ d', readOne (savePart c true roundS cals first last ref) cals =
      .ok (c.events, c.baseline, c.selection, c.dropLog, d') ∧
      List.Forall₂ (List.Forall₂ (List.Forall₂ (approxEntry eps))) d' d) := by
  constructor
  · rw [readOne_savePart c d false roundS cals first last ref hd hlen]
    have hdata : (d.map (fun e => toPrec false roundS (scaleWrite cals e))).map
        (fun e => (e.zip cals).map (fun rc => rc.1.map (fun x => x * rc.2))) = d := by
      rw [List.map_map]
      conv_rhs => rw [← List.map_id d]
      apply List.map_congr_left
      intro e he
      show ((toPrec false roundS (scaleWrite cals e)).zip cals).map
        (fun rc => rc.1.map (fun x => x * rc.2)) = e
      rw [show toPrec false roundS (scaleWrite cals e) = scaleWrite cals e from rfl,
          roundtrip_epoch_double cals e hcal, zip_map_fst_of_length e cals (hch e he)]
    rw [hdata]
  · refine ⟨(d.map (fun e => toPrec true roundS (scaleWrite cals e))).map
      (fun e => (e.zip cals).map (fun rc => rc.1.map (fun x => x * rc.2))), ?_, ?_⟩
    · exact readOne_savePart c d true roundS cals first last ref hd hlen
    · rw [List.map_map]
      apply forall2_map_of_mem
      intro e he
      exact roundtrip_epoch_single eps roundS cals e hcal (hch e he) hround

section RoundTripWitness

attribute [local semireducible] Rat.add Rat.mul Rat.sub Rat.inv Rat.ofScientific

theorem c4_roundtrip_witness :
    readOne (savePart collThresh false id [2] 0 1 none) [2] =
      .ok (collThresh.events, collThresh.baseline, collThresh.selection,
           collThresh.dropLog, [[[1, 2]], [[3, 4]]]) :=
  (c4_roundtrip collThresh [[[1, 2]], [[3, 4]]] [2] id 0 0 1 none rfl
    (by decide) (by decide) (by decide) (fun x => by simp)).1

end RoundTripWitness

end Epochs
